import Mathlib

/-!
# Verification of the lunarity Solidity parser core

A shallow embedding of the parser in `src/parser/src/nested.rs`,
`src/parser/src/statement.rs` and `src/parser/src/contract.rs`, together
with proofs about it.

The embedding works on a token list (the lexer is an external collaborator
that supplies a token cursor).  Spans are not modelled: all the properties
proved here are about tree shapes, produced errors and token consumption.
Parser helpers that live outside the three embedded source files
(`expect`, `allow`, `expect_str_node`, the primary-expression step of the
expression engine, `expression_list`, `type_name`, `variable_declaration`,
`parameter_list`, `unique_flag`) are modelled from the specification and
are marked `Modelled from the spec:` in their doc comments.

Recursive parsing functions are indexed by an explicit fuel argument and
recurse structurally on it; the entry points (`parse_expression`,
`parse_statement`, ...) supply fuel that is ample for the input length.
Token-consumption lemmas are proved for every fuel, so the fuel is an
implementation detail of the embedding, not an assumption.
-/

namespace Lunarity

/-- Elementary type names, mirroring `ElementaryTypeName` in the AST. -/
inductive ElementaryTypeName
| Bool
| Int (bytes : Nat)
| Uint (bytes : Nat)
| Byte (len : Nat)
| Address
| String
| Fixed
| Ufixed
deriving DecidableEq, Repr

/-- Binary operators, mirroring `BinaryOperator` in the AST. -/
inductive BinaryOperator
| LogicalOr
| LogicalAnd
| Equality
| Inequality
| Lesser
| LesserEquals
| Greater
| GreaterEquals
| BitOr
| BitXor
| BitAnd
| BitShiftLeft
| BitShiftRight
| Addition
| Subtraction
| Multiplication
| Division
| Remainder
| Exponent
deriving DecidableEq, Repr

/-- Assignment operators, mirroring `AssignmentOperator` in the AST. -/
inductive AssignmentOperator
| Plain
| Addition
| Subtraction
| Multiplication
| Division
| Remainder
| BitShiftLeft
| BitShiftRight
| BitAnd
| BitXor
| BitOr
deriving DecidableEq, Repr

/-- Postfix operators, mirroring `PostfixOperator` in the AST. -/
inductive PostfixOperator
| Increment
| Decrement
deriving DecidableEq, Repr

/-- Storage locations, mirroring `StorageLocation` in the AST. -/
inductive StorageLocation
| Memory
| Storage
| Calldata
deriving DecidableEq, Repr

/-- State variable visibilities, mirroring `StateVariableVisibility`. -/
inductive StateVariableVisibility
| Public
| Internal
| Private
deriving DecidableEq, Repr

set_option maxHeartbeats 1600000 in
/-- The lexer's token kinds, restricted to the fragment the embedded
parser functions inspect.  `Identifier` and the literal tokens carry their
source slice (the lexer's `slice()`). -/
inductive Token
| Identifier (slice : String)
| LiteralInteger (slice : String)
| LiteralString (slice : String)
| LiteralTrue
| LiteralFalse
| TypeElementary (t : ElementaryTypeName)
| ParenOpen
| ParenClose
| BracketOpen
| BracketClose
| BraceOpen
| BraceClose
| Comma
| Colon
| Semicolon
| Accessor
| OperatorIncrement
| OperatorDecrement
| OperatorMultiplication
| OperatorDivision
| OperatorRemainder
| OperatorExponent
| OperatorAddition
| OperatorSubtraction
| OperatorBitShiftLeft
| OperatorBitShiftRight
| OperatorLesser
| OperatorLesserEquals
| OperatorGreater
| OperatorGreaterEquals
| OperatorEquality
| OperatorInequality
| OperatorBitAnd
| OperatorBitXor
| OperatorBitOr
| OperatorLogicalAnd
| OperatorLogicalOr
| OperatorConditional
| Assign
| AssignAddition
| AssignSubtraction
| AssignMultiplication
| AssignDivision
| AssignRemainder
| AssignBitShiftLeft
| AssignBitShiftRight
| AssignBitAnd
| AssignBitXor
| AssignBitOr
| KeywordIf
| KeywordElse
| KeywordWhile
| KeywordFor
| KeywordDo
| KeywordReturn
| KeywordThrow
| KeywordAssembly
| KeywordContinue
| KeywordBreak
| DeclarationVar
| KeywordMemory
| KeywordStorage
| KeywordCalldata
| KeywordPublic
| KeywordInternal
| KeywordPrivate
| KeywordConstant
| DeclarationStruct
| DeclarationModifier
deriving Repr

/-- A discriminant for each token kind (the analogue of the enum
discriminant the lexer's token type compares by). -/
def Token.tag : Token → Nat
  | .Identifier _ => 0
  | .LiteralInteger _ => 1
  | .LiteralString _ => 2
  | .LiteralTrue => 3
  | .LiteralFalse => 4
  | .TypeElementary _ => 5
  | .ParenOpen => 6
  | .ParenClose => 7
  | .BracketOpen => 8
  | .BracketClose => 9
  | .BraceOpen => 10
  | .BraceClose => 11
  | .Comma => 12
  | .Colon => 13
  | .Semicolon => 14
  | .Accessor => 15
  | .OperatorIncrement => 16
  | .OperatorDecrement => 17
  | .OperatorMultiplication => 18
  | .OperatorDivision => 19
  | .OperatorRemainder => 20
  | .OperatorExponent => 21
  | .OperatorAddition => 22
  | .OperatorSubtraction => 23
  | .OperatorBitShiftLeft => 24
  | .OperatorBitShiftRight => 25
  | .OperatorLesser => 26
  | .OperatorLesserEquals => 27
  | .OperatorGreater => 28
  | .OperatorGreaterEquals => 29
  | .OperatorEquality => 30
  | .OperatorInequality => 31
  | .OperatorBitAnd => 32
  | .OperatorBitXor => 33
  | .OperatorBitOr => 34
  | .OperatorLogicalAnd => 35
  | .OperatorLogicalOr => 36
  | .OperatorConditional => 37
  | .Assign => 38
  | .AssignAddition => 39
  | .AssignSubtraction => 40
  | .AssignMultiplication => 41
  | .AssignDivision => 42
  | .AssignRemainder => 43
  | .AssignBitShiftLeft => 44
  | .AssignBitShiftRight => 45
  | .AssignBitAnd => 46
  | .AssignBitXor => 47
  | .AssignBitOr => 48
  | .KeywordIf => 49
  | .KeywordElse => 50
  | .KeywordWhile => 51
  | .KeywordFor => 52
  | .KeywordDo => 53
  | .KeywordReturn => 54
  | .KeywordThrow => 55
  | .KeywordAssembly => 56
  | .KeywordContinue => 57
  | .KeywordBreak => 58
  | .DeclarationVar => 59
  | .KeywordMemory => 60
  | .KeywordStorage => 61
  | .KeywordCalldata => 62
  | .KeywordPublic => 63
  | .KeywordInternal => 64
  | .KeywordPrivate => 65
  | .KeywordConstant => 66
  | .DeclarationStruct => 67
  | .DeclarationModifier => 68

/-- The string slice a token carries, if any. -/
def Token.strPayload : Token → Option String
  | .Identifier s => some s
  | .LiteralInteger s => some s
  | .LiteralString s => some s
  | _ => none

/-- The elementary type a token carries, if any. -/
def Token.elemPayload : Token → Option ElementaryTypeName
  | .TypeElementary t => some t
  | _ => none

/-- Token equality: same discriminant and same payloads. -/
def tokenEq (a b : Token) : Bool :=
  a.tag == b.tag && a.strPayload == b.strPayload && a.elemPayload == b.elemPayload

@[simp]
theorem tokenEq_self (t : Token) : tokenEq t t = true := by
  cases t <;> simp [tokenEq, Token.tag, Token.strPayload, Token.elemPayload]

/-- Expressions, mirroring the `Expression` payload family of the AST
(constructor argument order follows the struct field order in the
source). -/
inductive Expression
| IdentifierExpression (name : String)
| IntegerNumber (value : String)
| StringLiteral (value : String)
| BoolLiteral (b : Bool)
| ElementaryTypeExpression (t : ElementaryTypeName)
| TupleExpression (expressions : List Expression)
| CallExpression (callee : Expression) (arguments : List Expression)
| MemberAccessExpression (object : Expression) (member : String)
| IndexAccessExpression (array : Expression) (index : Option Expression)
| PostfixExpression (operator : PostfixOperator) (operand : Expression)
| BinaryExpression (left : Expression) (operator : BinaryOperator) (right : Expression)
| AssignmentExpression (operator : AssignmentOperator) (left : Expression) (right : Expression)
| ConditionalExpression (test consequent alternate : Expression)

/-- Type names, mirroring the `Type` payload family (`ElementaryTypeName`,
`UserDefinedTypeName`, `ArrayType`; `MappingType` is not exercised by any
claim and is outside the embedded token universe). -/
inductive TypeName
| ElementaryType (t : ElementaryTypeName)
| UserDefinedType (name : String)
| ArrayType (base : TypeName) (len : Option Expression)

/-- A `VariableDeclaration`: type name, optional storage location, name. -/
structure VariableDeclaration where
  type_name : TypeName
  location : Option StorageLocation
  id : String

/-- Statements, mirroring the `Statement` payload family. -/
inductive Statement
| BlockStatement (body : List Statement)
| IfStatement (test : Expression) (consequent : Statement) (alternate : Option Statement)
| WhileStatement (test : Expression) (body : Statement)
| ForStatement (init : Option Statement) (test : Option Expression)
    (update : Option Expression) (body : Statement)
| DoWhileStatement (body : Statement) (test : Expression)
| ReturnStatement (value : Option Expression)
| ThrowStatement
| Placeholder
| ContinueStatement
| BreakStatement
| InlineAssemblyStatement (string : Option String)
| VariableDefinitionStatement (declaration : VariableDeclaration) (init : Option Expression)
| InferredDefinitionStatement (ids : List (Option String)) (init : Expression)
| ExpressionStatement (expression : Expression)

/-- Parse-error kinds recorded in the error sink (Section 7 of the spec
names `UnexpectedToken` and `DuplicateFlag`; all other error sites are
generic `self.error()` calls and are recorded as `UnexpectedToken`). -/
inductive ParseError
| UnexpectedToken
| DuplicateFlag
deriving DecidableEq, Repr

/-- The result of a parsing function: a value, the remaining tokens, and
the errors appended to the error sink during the call. -/
structure PRes (α : Type) where
  val : α
  rest : List Token
  errs : List ParseError

/-- Modelled from the spec: `expect(T)` / `expect_end(T)` — consume the
token if it is the required one, otherwise record an error, do not
consume, and proceed as if it had been present (span bookkeeping is not
modelled). -/
def expect (t : Token) (ts : List Token) : List Token × List ParseError :=
  match ts with
  | u :: rest => if tokenEq u t then (rest, []) else (ts, [.UnexpectedToken])
  | [] => ([], [.UnexpectedToken])

@[simp]
theorem expect_cons_self (t : Token) (rest : List Token) :
    expect t (t :: rest) = (rest, []) := by
  simp [expect]

/-- Modelled from the spec: `allow(T)` — consume the token if present and
report whether it was. -/
def allow (t : Token) (ts : List Token) : Bool × List Token :=
  match ts with
  | u :: rest => if tokenEq u t then (true, rest) else (false, ts)
  | [] => (false, [])

/-- Modelled from the spec: `expect_str_node(Token::Identifier)` — consume
an identifier and return its slice; if absent, record an error and
fabricate one at the current position. -/
def expect_str_node (ts : List Token) : String × List Token × List ParseError :=
  match ts with
  | .Identifier s :: rest => (s, rest, [])
  | _ => ("", ts, [.UnexpectedToken])

/-- Modelled from the spec: `allow_str_node(Token::Identifier)` — consume
an identifier if present. -/
def allow_str_node (ts : List Token) : Option String × List Token :=
  match ts with
  | .Identifier s :: rest => (some s, rest)
  | _ => (none, ts)

/-- Modelled from the spec: `allow_str_node(Token::LiteralString)` —
consume a string literal if present. -/
def allow_string_literal (ts : List Token) : Option String × List Token :=
  match ts with
  | .LiteralString s :: rest => (some s, rest)
  | _ => (none, ts)

/-! ## The Pratt dispatch tables of `nested.rs`

One `Precedence` level per `impl Precedence for PrecedenceN` block, one
lookup function per `LUT`, and one `Handler` value per nested-handler
constant.  A binary handler carries the precedence level it recurses at
(the `$precedence` parameter of the `binary!` macro). -/

/-- The precedence marker types of `nested.rs`. -/
inductive Precedence
| TopPrecedence
| Precedence14
| Precedence13
| Precedence12
| Precedence11
| Precedence10
| Precedence9
| Precedence8
| Precedence7
| Precedence6
| Precedence5
| Precedence4
| Precedence3
| Precedence2
deriving DecidableEq, Repr

/-- A nested handler.  `HBinary level op` is a handler produced by
`binary!(NAME, level => op)`; `HAssign op` by `assign!(NAME => op)`. -/
inductive Handler
| HCall
| HMember
| HIndex
| HIncrement
| HDecrement
| HConditional
| HAssign (op : AssignmentOperator)
| HBinary (level : Precedence) (op : BinaryOperator)
deriving DecidableEq, Repr

def CALL : Option Handler := some .HCall
def MEMBR : Option Handler := some .HMember
def INDEX : Option Handler := some .HIndex
def INC : Option Handler := some .HIncrement
def DEC : Option Handler := some .HDecrement
def COND : Option Handler := some .HConditional

def ASGN : Option Handler := some (.HAssign .Plain)
def A_ADD : Option Handler := some (.HAssign .Addition)
def A_SUB : Option Handler := some (.HAssign .Subtraction)
def A_MUL : Option Handler := some (.HAssign .Multiplication)
def A_DIV : Option Handler := some (.HAssign .Division)
def A_REM : Option Handler := some (.HAssign .Remainder)
def A_BSL : Option Handler := some (.HAssign .BitShiftLeft)
def A_BSR : Option Handler := some (.HAssign .BitShiftRight)
def A_BAN : Option Handler := some (.HAssign .BitAnd)
def A_XOR : Option Handler := some (.HAssign .BitXor)
def A_BOR : Option Handler := some (.HAssign .BitOr)

def OR : Option Handler := some (.HBinary .Precedence13 .LogicalOr)
def AND : Option Handler := some (.HBinary .Precedence12 .LogicalAnd)
def EQ : Option Handler := some (.HBinary .Precedence11 .Equality)
def INEQ : Option Handler := some (.HBinary .Precedence11 .Inequality)
def LESS : Option Handler := some (.HBinary .Precedence10 .Lesser)
def LSEQ : Option Handler := some (.HBinary .Precedence10 .LesserEquals)
def GRTR : Option Handler := some (.HBinary .Precedence10 .Greater)
def GREQ : Option Handler := some (.HBinary .Precedence10 .GreaterEquals)
def B_OR : Option Handler := some (.HBinary .Precedence9 .BitOr)
def B_XOR : Option Handler := some (.HBinary .Precedence8 .BitXor)
def B_AND : Option Handler := some (.HBinary .Precedence7 .BitAnd)
def BSL : Option Handler := some (.HBinary .Precedence6 .BitShiftLeft)
def BSR : Option Handler := some (.HBinary .Precedence6 .BitShiftRight)
def ADD : Option Handler := some (.HBinary .Precedence5 .Addition)
def SUB : Option Handler := some (.HBinary .Precedence5 .Subtraction)
def MUL : Option Handler := some (.HBinary .Precedence4 .Multiplication)
def DIV : Option Handler := some (.HBinary .Precedence4 .Division)
def REM : Option Handler := some (.HBinary .Precedence4 .Remainder)
def EXPN : Option Handler := some (.HBinary .Precedence3 .Exponent)

/-- The table `TopPrecedence::LUT`. -/
def lutTop : Token → Option Handler
  | .Accessor => MEMBR
  | .ParenOpen => CALL
  | .BracketOpen => INDEX
  | .OperatorIncrement => INC
  | .OperatorDecrement => DEC
  | .OperatorMultiplication => MUL
  | .OperatorDivision => DIV
  | .OperatorRemainder => REM
  | .OperatorExponent => EXPN
  | .OperatorAddition => ADD
  | .OperatorSubtraction => SUB
  | .OperatorBitShiftLeft => BSL
  | .OperatorBitShiftRight => BSR
  | .OperatorLesser => LESS
  | .OperatorLesserEquals => LSEQ
  | .OperatorGreater => GRTR
  | .OperatorGreaterEquals => GREQ
  | .OperatorEquality => EQ
  | .OperatorInequality => INEQ
  | .OperatorBitAnd => B_AND
  | .OperatorBitXor => B_XOR
  | .OperatorBitOr => B_OR
  | .OperatorLogicalAnd => AND
  | .OperatorLogicalOr => OR
  | .OperatorConditional => COND
  | .Assign => ASGN
  | .AssignAddition => A_ADD
  | .AssignSubtraction => A_SUB
  | .AssignMultiplication => A_MUL
  | .AssignDivision => A_DIV
  | .AssignRemainder => A_REM
  | .AssignBitShiftLeft => A_BSL
  | .AssignBitShiftRight => A_BSR
  | .AssignBitAnd => A_BAN
  | .AssignBitXor => A_XOR
  | .AssignBitOr => A_BOR
  | _ => none

/-- The table `Precedence14::LUT`. -/
def lut14 : Token → Option Handler
  | .Accessor => MEMBR
  | .ParenOpen => CALL
  | .BracketOpen => INDEX
  | .OperatorIncrement => INC
  | .OperatorDecrement => DEC
  | .OperatorMultiplication => MUL
  | .OperatorDivision => DIV
  | .OperatorRemainder => REM
  | .OperatorExponent => EXPN
  | .OperatorAddition => ADD
  | .OperatorSubtraction => SUB
  | .OperatorBitShiftLeft => BSL
  | .OperatorBitShiftRight => BSR
  | .OperatorLesser => LESS
  | .OperatorLesserEquals => LSEQ
  | .OperatorGreater => GRTR
  | .OperatorGreaterEquals => GREQ
  | .OperatorEquality => EQ
  | .OperatorInequality => INEQ
  | .OperatorBitAnd => B_AND
  | .OperatorBitXor => B_XOR
  | .OperatorBitOr => B_OR
  | .OperatorLogicalAnd => AND
  | .OperatorLogicalOr => OR
  | .OperatorConditional => COND
  | _ => none

/-- The table `Precedence13::LUT`. -/
def lut13 : Token → Option Handler
  | .Accessor => MEMBR
  | .ParenOpen => CALL
  | .BracketOpen => INDEX
  | .OperatorIncrement => INC
  | .OperatorDecrement => DEC
  | .OperatorMultiplication => MUL
  | .OperatorDivision => DIV
  | .OperatorRemainder => REM
  | .OperatorExponent => EXPN
  | .OperatorAddition => ADD
  | .OperatorSubtraction => SUB
  | .OperatorBitShiftLeft => BSL
  | .OperatorBitShiftRight => BSR
  | .OperatorLesser => LESS
  | .OperatorLesserEquals => LSEQ
  | .OperatorGreater => GRTR
  | .OperatorGreaterEquals => GREQ
  | .OperatorEquality => EQ
  | .OperatorInequality => INEQ
  | .OperatorBitAnd => B_AND
  | .OperatorBitXor => B_XOR
  | .OperatorBitOr => B_OR
  | .OperatorLogicalAnd => AND
  | .OperatorLogicalOr => OR
  | _ => none

/-- The table `Precedence12::LUT`. -/
def lut12 : Token → Option Handler
  | .Accessor => MEMBR
  | .ParenOpen => CALL
  | .BracketOpen => INDEX
  | .OperatorIncrement => INC
  | .OperatorDecrement => DEC
  | .OperatorMultiplication => MUL
  | .OperatorDivision => DIV
  | .OperatorRemainder => REM
  | .OperatorExponent => EXPN
  | .OperatorAddition => ADD
  | .OperatorSubtraction => SUB
  | .OperatorBitShiftLeft => BSL
  | .OperatorBitShiftRight => BSR
  | .OperatorLesser => LESS
  | .OperatorLesserEquals => LSEQ
  | .OperatorGreater => GRTR
  | .OperatorGreaterEquals => GREQ
  | .OperatorEquality => EQ
  | .OperatorInequality => INEQ
  | .OperatorBitAnd => B_AND
  | .OperatorBitXor => B_XOR
  | .OperatorBitOr => B_OR
  | .OperatorLogicalAnd => AND
  | _ => none

/-- The table `Precedence11::LUT`. -/
def lut11 : Token → Option Handler
  | .Accessor => MEMBR
  | .ParenOpen => CALL
  | .BracketOpen => INDEX
  | .OperatorIncrement => INC
  | .OperatorDecrement => DEC
  | .OperatorMultiplication => MUL
  | .OperatorDivision => DIV
  | .OperatorRemainder => REM
  | .OperatorExponent => EXPN
  | .OperatorAddition => ADD
  | .OperatorSubtraction => SUB
  | .OperatorBitShiftLeft => BSL
  | .OperatorBitShiftRight => BSR
  | .OperatorLesser => LESS
  | .OperatorLesserEquals => LSEQ
  | .OperatorGreater => GRTR
  | .OperatorGreaterEquals => GREQ
  | .OperatorEquality => EQ
  | .OperatorInequality => INEQ
  | .OperatorBitAnd => B_AND
  | .OperatorBitXor => B_XOR
  | .OperatorBitOr => B_OR
  | _ => none

/-- The table `Precedence10::LUT`. -/
def lut10 : Token → Option Handler
  | .Accessor => MEMBR
  | .ParenOpen => CALL
  | .BracketOpen => INDEX
  | .OperatorIncrement => INC
  | .OperatorDecrement => DEC
  | .OperatorMultiplication => MUL
  | .OperatorDivision => DIV
  | .OperatorRemainder => REM
  | .OperatorExponent => EXPN
  | .OperatorAddition => ADD
  | .OperatorSubtraction => SUB
  | .OperatorBitShiftLeft => BSL
  | .OperatorBitShiftRight => BSR
  | .OperatorLesser => LESS
  | .OperatorLesserEquals => LSEQ
  | .OperatorGreater => GRTR
  | .OperatorGreaterEquals => GREQ
  | .OperatorBitAnd => B_AND
  | .OperatorBitXor => B_XOR
  | .OperatorBitOr => B_OR
  | _ => none

/-- The table `Precedence9::LUT`. -/
def lut9 : Token → Option Handler
  | .Accessor => MEMBR
  | .ParenOpen => CALL
  | .BracketOpen => INDEX
  | .OperatorIncrement => INC
  | .OperatorDecrement => DEC
  | .OperatorMultiplication => MUL
  | .OperatorDivision => DIV
  | .OperatorRemainder => REM
  | .OperatorExponent => EXPN
  | .OperatorAddition => ADD
  | .OperatorSubtraction => SUB
  | .OperatorBitShiftLeft => BSL
  | .OperatorBitShiftRight => BSR
  | .OperatorBitAnd => B_AND
  | .OperatorBitXor => B_XOR
  | .OperatorBitOr => B_OR
  | _ => none

/-- The table `Precedence8::LUT`. -/
def lut8 : Token → Option Handler
  | .Accessor => MEMBR
  | .ParenOpen => CALL
  | .BracketOpen => INDEX
  | .OperatorIncrement => INC
  | .OperatorDecrement => DEC
  | .OperatorMultiplication => MUL
  | .OperatorDivision => DIV
  | .OperatorRemainder => REM
  | .OperatorExponent => EXPN
  | .OperatorAddition => ADD
  | .OperatorSubtraction => SUB
  | .OperatorBitShiftLeft => BSL
  | .OperatorBitShiftRight => BSR
  | .OperatorBitAnd => B_AND
  | .OperatorBitXor => B_XOR
  | _ => none

/-- The table `Precedence7::LUT`. -/
def lut7 : Token → Option Handler
  | .Accessor => MEMBR
  | .ParenOpen => CALL
  | .BracketOpen => INDEX
  | .OperatorIncrement => INC
  | .OperatorDecrement => DEC
  | .OperatorMultiplication => MUL
  | .OperatorDivision => DIV
  | .OperatorRemainder => REM
  | .OperatorExponent => EXPN
  | .OperatorAddition => ADD
  | .OperatorSubtraction => SUB
  | .OperatorBitShiftLeft => BSL
  | .OperatorBitShiftRight => BSR
  | .OperatorBitAnd => B_AND
  | _ => none

/-- The table `Precedence6::LUT`. -/
def lut6 : Token → Option Handler
  | .Accessor => MEMBR
  | .ParenOpen => CALL
  | .BracketOpen => INDEX
  | .OperatorIncrement => INC
  | .OperatorDecrement => DEC
  | .OperatorMultiplication => MUL
  | .OperatorDivision => DIV
  | .OperatorRemainder => REM
  | .OperatorExponent => EXPN
  | .OperatorAddition => ADD
  | .OperatorSubtraction => SUB
  | .OperatorBitShiftLeft => BSL
  | .OperatorBitShiftRight => BSR
  | _ => none

/-- The table `Precedence5::LUT`. -/
def lut5 : Token → Option Handler
  | .Accessor => MEMBR
  | .ParenOpen => CALL
  | .BracketOpen => INDEX
  | .OperatorIncrement => INC
  | .OperatorDecrement => DEC
  | .OperatorMultiplication => MUL
  | .OperatorDivision => DIV
  | .OperatorRemainder => REM
  | .OperatorExponent => EXPN
  | .OperatorAddition => ADD
  | .OperatorSubtraction => SUB
  | _ => none

/-- The table `Precedence4::LUT`. -/
def lut4 : Token → Option Handler
  | .Accessor => MEMBR
  | .ParenOpen => CALL
  | .BracketOpen => INDEX
  | .OperatorIncrement => INC
  | .OperatorDecrement => DEC
  | .OperatorMultiplication => MUL
  | .OperatorDivision => DIV
  | .OperatorRemainder => REM
  | .OperatorExponent => EXPN
  | _ => none

/-- The table `Precedence3::LUT`. -/
def lut3 : Token → Option Handler
  | .Accessor => MEMBR
  | .ParenOpen => CALL
  | .BracketOpen => INDEX
  | .OperatorIncrement => INC
  | .OperatorDecrement => DEC
  | .OperatorExponent => EXPN
  | _ => none

/-- The table `Precedence2::LUT`. -/
def lut2 : Token → Option Handler
  | .Accessor => MEMBR
  | .ParenOpen => CALL
  | .BracketOpen => INDEX
  | .OperatorIncrement => INC
  | .OperatorDecrement => DEC
  | _ => none

/-- The table `P::LUT`, dispatched on the precedence marker. -/
def lut : Precedence → Token → Option Handler
  | .TopPrecedence => lutTop
  | .Precedence14 => lut14
  | .Precedence13 => lut13
  | .Precedence12 => lut12
  | .Precedence11 => lut11
  | .Precedence10 => lut10
  | .Precedence9 => lut9
  | .Precedence8 => lut8
  | .Precedence7 => lut7
  | .Precedence6 => lut6
  | .Precedence5 => lut5
  | .Precedence4 => lut4
  | .Precedence3 => lut3
  | .Precedence2 => lut2

/-! ## The expression engine

`nested_expression` and the handlers are taken from `nested.rs`; the
primary-expression step and `expression_list` live outside `src/` and are
modelled from the spec (Section 4.4, steps 1 and CALL).  Every handler in
the source first consumes the operator token (via `advance()` or
`node_at_token`) and then parses from the following token; in the
embedding `nested_expression` passes `run_handler` the tokens after the
operator, which is the same discipline. -/

mutual

/-- Modelled from the spec: step 1 of the expression algorithm — "Parse a
prefix/primary expression (identifier, literal, tuple `(…)`, elementary
type name used as expression)".  The unary-operator forms are outside the
embedded token universe (their precedence is an open question in the
spec) and no claim exercises them. -/
def primary_expression (fuel : Nat) (ts : List Token) : PRes (Option Expression) :=
  match fuel with
  | 0 => ⟨none, ts, []⟩
  | fuel + 1 =>
    match ts with
    | .Identifier s :: rest => ⟨some (.IdentifierExpression s), rest, []⟩
    | .LiteralInteger s :: rest => ⟨some (.IntegerNumber s), rest, []⟩
    | .LiteralString s :: rest => ⟨some (.StringLiteral s), rest, []⟩
    | .LiteralTrue :: rest => ⟨some (.BoolLiteral true), rest, []⟩
    | .LiteralFalse :: rest => ⟨some (.BoolLiteral false), rest, []⟩
    | .TypeElementary t :: rest => ⟨some (.ElementaryTypeExpression t), rest, []⟩
    | .ParenOpen :: rest =>
      let l := expression_list fuel rest
      let c := expect .ParenClose l.rest
      ⟨some (.TupleExpression l.val), c.1, l.errs ++ c.2⟩
    | _ => ⟨none, ts, []⟩

/-- Source `Parser::expression::<P>`: primary expression, then the nested
dispatch loop at precedence `P`. -/
def expression (fuel : Nat) (P : Precedence) (ts : List Token) : PRes (Option Expression) :=
  match fuel with
  | 0 => ⟨none, ts, []⟩
  | fuel + 1 =>
    let p := primary_expression fuel ts
    match p.val with
    | none => ⟨none, p.rest, p.errs⟩
    | some e =>
      let n := nested_expression fuel P e p.rest
      ⟨some n.val, n.rest, p.errs ++ n.errs⟩

/-- Source `Parser::nested_expression::<P>` (nested.rs): while the LUT has a
handler for the current token and the handler succeeds, replace the left
operand with the produced node and continue; otherwise return the
accumulated left expression.  Tokens already consumed by a failing
handler stay consumed. -/
def nested_expression (fuel : Nat) (P : Precedence) (left : Expression)
    (ts : List Token) : PRes Expression :=
  match fuel with
  | 0 => ⟨left, ts, []⟩
  | fuel + 1 =>
    match ts with
    | t :: rest =>
      match lut P t with
      | some h =>
        let r := run_handler fuel h left rest
        match r.val with
        | some node =>
          let n := nested_expression fuel P node r.rest
          ⟨n.val, n.rest, r.errs ++ n.errs⟩
        | none => ⟨left, r.rest, r.errs⟩
      | none => ⟨left, ts, []⟩
    | [] => ⟨left, [], []⟩

/-- The nested handlers of `nested.rs`, applied after the operator token
has been consumed.  `expect!(par, e)` on a failed sub-expression records
an error and makes the handler return `None`. -/
def run_handler (fuel : Nat) (h : Handler) (left : Expression)
    (ts : List Token) : PRes (Option Expression) :=
  match fuel with
  | 0 => ⟨none, ts, []⟩
  | fuel + 1 =>
    match h with
    | .HCall =>
      let args := expression_list fuel ts
      let c := expect .ParenClose args.rest
      ⟨some (.CallExpression left args.val), c.1, args.errs ++ c.2⟩
    | .HMember =>
      let m := expect_str_node ts
      ⟨some (.MemberAccessExpression left m.1), m.2.1, m.2.2⟩
    | .HIndex =>
      let i := expression fuel .TopPrecedence ts
      let c := expect .BracketClose i.rest
      ⟨some (.IndexAccessExpression left i.val), c.1, i.errs ++ c.2⟩
    | .HIncrement => ⟨some (.PostfixExpression .Increment left), ts, []⟩
    | .HDecrement => ⟨some (.PostfixExpression .Decrement left), ts, []⟩
    | .HConditional =>
      let c := expression fuel .Precedence14 ts
      match c.val with
      | none => ⟨none, c.rest, c.errs ++ [.UnexpectedToken]⟩
      | some consequent =>
        let k := expect .Colon c.rest
        let a := expression fuel .Precedence14 k.1
        match a.val with
        | none => ⟨none, a.rest, c.errs ++ k.2 ++ a.errs ++ [.UnexpectedToken]⟩
        | some alternate =>
          ⟨some (.ConditionalExpression left consequent alternate), a.rest,
            c.errs ++ k.2 ++ a.errs⟩
    | .HAssign op =>
      let r := expression fuel .TopPrecedence ts
      match r.val with
      | none => ⟨none, r.rest, r.errs ++ [.UnexpectedToken]⟩
      | some right => ⟨some (.AssignmentExpression op left right), r.rest, r.errs⟩
    | .HBinary level op =>
      let r := expression fuel level ts
      match r.val with
      | none => ⟨none, r.rest, r.errs ++ [.UnexpectedToken]⟩
      | some right => ⟨some (.BinaryExpression left op right), r.rest, r.errs⟩

/-- Modelled from the spec: `expression_list` — a comma-separated,
possibly empty list of expressions parsed at TOP precedence. -/
def expression_list (fuel : Nat) (ts : List Token) : PRes (List Expression) :=
  match fuel with
  | 0 => ⟨[], ts, []⟩
  | fuel + 1 =>
    let e := expression fuel .TopPrecedence ts
    match e.val with
    | none => ⟨[], e.rest, e.errs⟩
    | some x =>
      let t := expression_list_tail fuel [x] e.rest
      ⟨t.val, t.rest, e.errs ++ t.errs⟩

/-- Modelled from the spec: the comma loop of `expression_list`; a missing
expression after a comma records an error and the loop continues. -/
def expression_list_tail (fuel : Nat) (acc : List Expression)
    (ts : List Token) : PRes (List Expression) :=
  match fuel with
  | 0 => ⟨acc, ts, []⟩
  | fuel + 1 =>
    match ts with
    | .Comma :: rest =>
      let e := expression fuel .TopPrecedence rest
      match e.val with
      | some x =>
        let t := expression_list_tail fuel (acc ++ [x]) e.rest
        ⟨t.val, t.rest, e.errs ++ t.errs⟩
      | none =>
        let t := expression_list_tail fuel acc e.rest
        ⟨t.val, t.rest, e.errs ++ [.UnexpectedToken] ++ t.errs⟩
    | _ => ⟨acc, ts, []⟩

end

/-- The fuel supplied by the entry points: ample for the input length. -/
def fuelFor (ts : List Token) : Nat := 16 * ts.length + 16

/-- The expression parser's entry point (`expression::<TopPrecedence>`,
the bound used by all expression-opening entry points per the spec). -/
def parse_expression (ts : List Token) : PRes (Option Expression) :=
  expression (fuelFor ts) .TopPrecedence ts

/-! ## The type-name parser (modelled from the spec, Section 4.5)

`type_name` and `variable_declaration` live outside `src/`.  The model
accepts an elementary type keyword or an identifier (user-defined type)
as the base, followed by repeated array suffixes; `mapping` types are
outside the embedded token universe.  The two contexts govern failure
behaviour: in `StatementTypeNameContext` a declaration that does not pan
out must fail without consuming tokens so the statement parser can fall
back to an expression statement (spec Sections 4.5 and 9, realised here
by rolling the token position back in `variable_declaration`). -/

/-- The two type-name contexts. -/
inductive TypeNameContext
| RegularTypeNameContext
| StatementTypeNameContext
deriving DecidableEq, Repr

/-- Modelled from the spec: "Array suffixes are repeatedly consumed after
the base; `[` without an expression denotes a dynamic array, `[ expr ]` a
fixed array." -/
def array_suffixes (fuel : Nat) (base : TypeName) (ts : List Token) : PRes TypeName :=
  match fuel with
  | 0 => ⟨base, ts, []⟩
  | fuel + 1 =>
    match ts with
    | .BracketOpen :: rest =>
      let e := expression fuel .TopPrecedence rest
      let c := expect .BracketClose e.rest
      let r := array_suffixes fuel (.ArrayType base e.val) c.1
      ⟨r.val, r.rest, e.errs ++ c.2 ++ r.errs⟩
    | _ => ⟨base, ts, []⟩

/-- Modelled from the spec: `type_name` — elementary type keywords or an
identifier (user-defined type) as base, then array suffixes; fails
without consuming tokens on any other leading token. -/
def type_name (fuel : Nat) (_ctx : TypeNameContext) (ts : List Token) :
    PRes (Option TypeName) :=
  match ts with
  | .TypeElementary t :: rest =>
    let r := array_suffixes fuel (.ElementaryType t) rest
    ⟨some r.val, r.rest, r.errs⟩
  | .Identifier s :: rest =>
    let r := array_suffixes fuel (.UserDefinedType s) rest
    ⟨some r.val, r.rest, r.errs⟩
  | _ => ⟨none, ts, []⟩

/-- Modelled from the spec: the optional storage location keyword between
type and name. -/
def allow_location (ts : List Token) : Option StorageLocation × List Token :=
  match ts with
  | .KeywordMemory :: rest => (some .Memory, rest)
  | .KeywordStorage :: rest => (some .Storage, rest)
  | .KeywordCalldata :: rest => (some .Calldata, rest)
  | _ => (none, ts)

/-- Modelled from the spec: `variable_declaration::<Context>` — a type
name, an optional storage location, and an identifier.  In
`StatementTypeNameContext` a missing identifier makes the whole
declaration fail with the token position rolled back and no error (so the
statement parser can fall back); in `RegularTypeNameContext` the
identifier is required (`expect_str_node` fabricates it on error). -/
def variable_declaration (fuel : Nat) (ctx : TypeNameContext) (ts : List Token) :
    PRes (Option VariableDeclaration) :=
  let t := type_name fuel ctx ts
  match t.val with
  | none => ⟨none, t.rest, t.errs⟩
  | some ty =>
    let l := allow_location t.rest
    match l.2 with
    | .Identifier s :: rest2 => ⟨some ⟨ty, l.1, s⟩, rest2, t.errs⟩
    | _ =>
      match ctx with
      | .StatementTypeNameContext => ⟨none, ts, []⟩
      | .RegularTypeNameContext =>
        ⟨some ⟨ty, l.1, ""⟩, l.2, t.errs ++ [.UnexpectedToken]⟩

/-! ## The statement engine (statement.rs)

The four statement contexts and their `pre_parse` hooks are taken
verbatim from `statement.rs`; so are `statement`, `block`,
`token_statement` and all the statement-form parsers.  Spans are not
modelled, so `start_then_advance()` appears as consuming the leading
token in a pattern match. -/

/-- The statement contexts of `statement.rs`. -/
inductive StatementContext
| FunctionContext
| ModifierContext
| FunctionLoopContext
| ModifierLoopContext
deriving DecidableEq, Repr

/-- The `LoopContext` associated type: the context used when entering a
loop body. -/
def StatementContext.loopContext : StatementContext → StatementContext
  | .FunctionContext => .FunctionLoopContext
  | .ModifierContext => .ModifierLoopContext
  | .FunctionLoopContext => .FunctionLoopContext
  | .ModifierLoopContext => .ModifierLoopContext

/-- Source `token_statement`: consume the current token, expect a semicolon, and
produce the given statement node. -/
def token_statement (s : Statement) (ts : List Token) : PRes (Option Statement) :=
  match ts with
  | _ :: rest =>
    let c := expect .Semicolon rest
    ⟨some s, c.1, c.2⟩
  | [] => ⟨none, [], []⟩

/-- Source `StatementContext::pre_parse`: the statements that are valid only in
a specific context.  `FunctionContext` recognises nothing;
`ModifierContext` recognises the identifier `_` as a `Placeholder`;
`FunctionLoopContext` recognises `continue`/`break`;
`ModifierLoopContext` recognises all three. -/
def pre_parse (c : StatementContext) (ts : List Token) : PRes (Option Statement) :=
  match c with
  | .FunctionContext => ⟨none, ts, []⟩
  | .ModifierContext =>
    match ts with
    | .Identifier s :: _ =>
      if s = "_" then token_statement .Placeholder ts else ⟨none, ts, []⟩
    | _ => ⟨none, ts, []⟩
  | .FunctionLoopContext =>
    match ts with
    | .KeywordContinue :: _ => token_statement .ContinueStatement ts
    | .KeywordBreak :: _ => token_statement .BreakStatement ts
    | _ => ⟨none, ts, []⟩
  | .ModifierLoopContext =>
    match ts with
    | .Identifier s :: _ =>
      if s = "_" then token_statement .Placeholder ts else ⟨none, ts, []⟩
    | .KeywordContinue :: _ => token_statement .ContinueStatement ts
    | .KeywordBreak :: _ => token_statement .BreakStatement ts
    | _ => ⟨none, ts, []⟩

/-- The `tuple_destructing` comma loop: after each comma an optional
identifier (a hole when absent); terminated by `expect(ParenClose)`. -/
def tuple_destructing_tail (acc : List (Option String)) :
    List Token → PRes (List (Option String))
  | .Comma :: .Identifier s :: rest => tuple_destructing_tail (acc ++ [some s]) rest
  | .Comma :: rest => tuple_destructing_tail (acc ++ [none]) rest
  | ts =>
    let c := expect .ParenClose ts
    ⟨acc, c.1, c.2⟩

/-- Source `tuple_destructing` (statement.rs): an empty tuple on an immediate
`)`, otherwise an optional first identifier followed by the comma loop. -/
def tuple_destructing : List Token → PRes (List (Option String))
  | .ParenClose :: rest => ⟨[], rest, []⟩
  | .Identifier s :: rest => tuple_destructing_tail [some s] rest
  | ts => tuple_destructing_tail [none] ts

/-- Source `inferred_definition_statement` (statement.rs): consume `var`, then a
single identifier or a tuple pattern, then a mandatory `=` and
initialising expression (its absence records an error and yields no
node), then the terminating semicolon. -/
def inferred_definition_statement (fuel : Nat) (ts : List Token) :
    PRes (Option Statement) :=
  match ts with
  | _ :: rest0 =>
    let ids : PRes (List (Option String)) :=
      match rest0 with
      | .ParenOpen :: rest0b => tuple_destructing rest0b
      | _ =>
        let s := expect_str_node rest0
        ⟨[some s.1], s.2.1, s.2.2⟩
    let a := expect .Assign ids.rest
    let e := expression fuel .TopPrecedence a.1
    match e.val with
    | none => ⟨none, e.rest, ids.errs ++ a.2 ++ e.errs ++ [.UnexpectedToken]⟩
    | some init =>
      let c := expect .Semicolon e.rest
      ⟨some (.InferredDefinitionStatement ids.val init), c.1,
        ids.errs ++ a.2 ++ e.errs ++ c.2⟩
  | [] => ⟨none, [], []⟩

/-- Source `expression_statement` (statement.rs): an expression followed by a
semicolon; fails (without a node) when no expression parses. -/
def expression_statement (fuel : Nat) (ts : List Token) : PRes (Option Statement) :=
  let e := expression fuel .TopPrecedence ts
  match e.val with
  | none => ⟨none, e.rest, e.errs⟩
  | some x =>
    let c := expect .Semicolon e.rest
    ⟨some (.ExpressionStatement x), c.1, e.errs ++ c.2⟩

/-- Source `variable_definition_statement` (statement.rs): a variable
declaration in `StatementTypeNameContext`, an optional `= expression`
initialiser (a missing expression after `=` records an error), and the
terminating semicolon. -/
def variable_definition_statement (fuel : Nat) (ts : List Token) :
    PRes (Option Statement) :=
  let d := variable_declaration fuel .StatementTypeNameContext ts
  match d.val with
  | none => ⟨none, d.rest, d.errs⟩
  | some decl =>
    match d.rest with
    | .Assign :: rest1 =>
      let e := expression fuel .TopPrecedence rest1
      let errsE : List ParseError :=
        match e.val with
        | none => [.UnexpectedToken]
        | some _ => []
      let c := expect .Semicolon e.rest
      ⟨some (.VariableDefinitionStatement decl e.val), c.1,
        d.errs ++ e.errs ++ errsE ++ c.2⟩
    | _ =>
      let c := expect .Semicolon d.rest
      ⟨some (.VariableDefinitionStatement decl none), c.1, d.errs ++ c.2⟩

/-- Source `simple_statement` (statement.rs): `var` statements, else a variable
definition with an expression-statement fallback. -/
def simple_statement (fuel : Nat) (ts : List Token) : PRes (Option Statement) :=
  match ts with
  | .DeclarationVar :: _ => inferred_definition_statement fuel ts
  | _ =>
    let v := variable_definition_statement fuel ts
    match v.val with
    | none => expression_statement fuel ts
    | some _ => v

/-- Source `return_statement` (statement.rs): consume `return`, an optional
expression, and the terminating semicolon. -/
def return_statement (fuel : Nat) (ts : List Token) : PRes (Option Statement) :=
  match ts with
  | _ :: rest0 =>
    let e := expression fuel .TopPrecedence rest0
    let c := expect .Semicolon e.rest
    ⟨some (.ReturnStatement e.val), c.1, e.errs ++ c.2⟩
  | [] => ⟨none, [], []⟩

/-- Modelled from the spec: `inline_assembly_block` — the assembly block
is a nested brace-delimited token soup of which only the outer framing
concerns the parser; the skipper consumes tokens tracking brace depth. -/
def skip_assembly_block (depth : Nat) : List Token → List Token × List ParseError
  | [] => ([], [.UnexpectedToken])
  | .BraceOpen :: rest => skip_assembly_block (depth + 1) rest
  | .BraceClose :: rest =>
    if depth = 0 then (rest, []) else skip_assembly_block (depth - 1) rest
  | _ :: rest => skip_assembly_block depth rest

/-- Source `inline_assembly_statement` (statement.rs): consume `assembly`, an
optional string literal, then the assembly block; a missing `{` records
an error and the statement fails. -/
def inline_assembly_statement (ts : List Token) : PRes (Option Statement) :=
  match ts with
  | _ :: rest0 =>
    let str := allow_string_literal rest0
    match str.2 with
    | .BraceOpen :: rest2 =>
      let k := skip_assembly_block 0 rest2
      ⟨some (.InlineAssemblyStatement str.1), k.1, k.2⟩
    | _ => ⟨none, str.2, [.UnexpectedToken, .UnexpectedToken]⟩
  | [] => ⟨none, [], []⟩

mutual

/-- Source `Parser::statement::<Context>` (statement.rs): the context's
`pre_parse` first, then dispatch on the current token, with a
variable-definition / expression-statement fallback. -/
def statement (fuel : Nat) (c : StatementContext) (ts : List Token) :
    PRes (Option Statement) :=
  match fuel with
  | 0 => ⟨none, ts, []⟩
  | fuel + 1 =>
    let pre := pre_parse c ts
    match pre.val with
    | some s => ⟨some s, pre.rest, pre.errs⟩
    | none =>
      match ts with
      | .BraceOpen :: _ =>
        let b := block fuel c ts
        ⟨some (.BlockStatement b.val), b.rest, b.errs⟩
      | .KeywordIf :: _ => if_statement fuel c ts
      | .KeywordWhile :: _ => while_statement fuel c ts
      | .KeywordFor :: _ => for_statement fuel c ts
      | .KeywordDo :: _ => do_while_statement fuel c ts
      | .KeywordReturn :: _ => return_statement fuel ts
      | .KeywordThrow :: _ => token_statement .ThrowStatement ts
      | .KeywordAssembly :: _ => inline_assembly_statement ts
      | .DeclarationVar :: _ => inferred_definition_statement fuel ts
      | _ =>
        let v := variable_definition_statement fuel ts
        match v.val with
        | none => expression_statement fuel ts
        | some _ => v

/-- Source `Parser::block::<Context, _>` (statement.rs): consume the current
token (`start_then_advance`), parse statements until one fails, then
`expect_end(BraceClose)`.  The value is the block's statement list. -/
def block (fuel : Nat) (c : StatementContext) (ts : List Token) :
    PRes (List Statement) :=
  match fuel with
  | 0 => ⟨[], ts, []⟩
  | fuel + 1 =>
    match ts with
    | _ :: rest0 =>
      let b := block_body fuel c [] rest0
      let k := expect .BraceClose b.rest
      ⟨b.val, k.1, b.errs ++ k.2⟩
    | [] => ⟨[], [], []⟩

/-- The statement loop inside `block`: `while let Some(statement) =
self.statement::<Context>() { push }`. -/
def block_body (fuel : Nat) (c : StatementContext) (acc : List Statement)
    (ts : List Token) : PRes (List Statement) :=
  match fuel with
  | 0 => ⟨acc, ts, []⟩
  | fuel + 1 =>
    let s := statement fuel c ts
    match s.val with
    | some st =>
      let r := block_body fuel c (acc ++ [st]) s.rest
      ⟨r.val, r.rest, s.errs ++ r.errs⟩
    | none => ⟨acc, s.rest, s.errs⟩

/-- Source `if_statement` (statement.rs): `if ( test ) consequent [else
alternate]`; a missing test or consequent fails the statement, a missing
alternate after `else` records an error but keeps the node. -/
def if_statement (fuel : Nat) (c : StatementContext) (ts : List Token) :
    PRes (Option Statement) :=
  match fuel with
  | 0 => ⟨none, ts, []⟩
  | fuel + 1 =>
    match ts with
    | _ :: rest0 =>
      let p := expect .ParenOpen rest0
      let t := expression fuel .TopPrecedence p.1
      match t.val with
      | none => ⟨none, t.rest, p.2 ++ t.errs ++ [.UnexpectedToken]⟩
      | some test =>
        let q := expect .ParenClose t.rest
        let cs := statement fuel c q.1
        match cs.val with
        | none =>
          ⟨none, cs.rest, p.2 ++ t.errs ++ q.2 ++ cs.errs ++ [.UnexpectedToken]⟩
        | some consequent =>
          match cs.rest with
          | .KeywordElse :: rest3 =>
            let alt := statement fuel c rest3
            let errsAlt : List ParseError :=
              match alt.val with
              | none => [.UnexpectedToken]
              | some _ => []
            ⟨some (.IfStatement test consequent alt.val), alt.rest,
              p.2 ++ t.errs ++ q.2 ++ cs.errs ++ alt.errs ++ errsAlt⟩
          | _ =>
            ⟨some (.IfStatement test consequent none), cs.rest,
              p.2 ++ t.errs ++ q.2 ++ cs.errs⟩
    | [] => ⟨none, [], []⟩

/-- Source `while_statement` (statement.rs): `while ( test ) body`, the body
parsed in `Context::LoopContext`. -/
def while_statement (fuel : Nat) (c : StatementContext) (ts : List Token) :
    PRes (Option Statement) :=
  match fuel with
  | 0 => ⟨none, ts, []⟩
  | fuel + 1 =>
    match ts with
    | _ :: rest0 =>
      let p := expect .ParenOpen rest0
      let t := expression fuel .TopPrecedence p.1
      match t.val with
      | none => ⟨none, t.rest, p.2 ++ t.errs ++ [.UnexpectedToken]⟩
      | some test =>
        let q := expect .ParenClose t.rest
        let b := statement fuel c.loopContext q.1
        match b.val with
        | none => ⟨none, b.rest, p.2 ++ t.errs ++ q.2 ++ b.errs ++ [.UnexpectedToken]⟩
        | some body =>
          ⟨some (.WhileStatement test body), b.rest, p.2 ++ t.errs ++ q.2 ++ b.errs⟩
    | [] => ⟨none, [], []⟩

/-- Source `for_statement` (statement.rs): `for ( init? ; test? ; update? )
body`, the init a simple statement (which consumes its own semicolon),
the body parsed in `Context::LoopContext`. -/
def for_statement (fuel : Nat) (c : StatementContext) (ts : List Token) :
    PRes (Option Statement) :=
  match fuel with
  | 0 => ⟨none, ts, []⟩
  | fuel + 1 =>
    match ts with
    | _ :: rest0 =>
      let p := expect .ParenOpen rest0
      let i := simple_statement fuel p.1
      let si : List Token × List ParseError :=
        match i.val with
        | none => expect .Semicolon i.rest
        | some _ => (i.rest, [])
      let t := expression fuel .TopPrecedence si.1
      let q := expect .Semicolon t.rest
      let u := expression fuel .TopPrecedence q.1
      let r := expect .ParenClose u.rest
      let b := statement fuel c.loopContext r.1
      match b.val with
      | none =>
        ⟨none, b.rest,
          p.2 ++ i.errs ++ si.2 ++ t.errs ++ q.2 ++ u.errs ++ r.2 ++ b.errs
            ++ [.UnexpectedToken]⟩
      | some body =>
        ⟨some (.ForStatement i.val t.val u.val body), b.rest,
          p.2 ++ i.errs ++ si.2 ++ t.errs ++ q.2 ++ u.errs ++ r.2 ++ b.errs⟩
    | [] => ⟨none, [], []⟩

/-- Source `do_while_statement` (statement.rs): `do body while ( test ) ;`, the
body parsed in `Context::LoopContext`. -/
def do_while_statement (fuel : Nat) (c : StatementContext) (ts : List Token) :
    PRes (Option Statement) :=
  match fuel with
  | 0 => ⟨none, ts, []⟩
  | fuel + 1 =>
    match ts with
    | _ :: rest0 =>
      let b := statement fuel c.loopContext rest0
      match b.val with
      | none => ⟨none, b.rest, b.errs ++ [.UnexpectedToken]⟩
      | some body =>
        let w := expect .KeywordWhile b.rest
        let p := expect .ParenOpen w.1
        let t := expression fuel .TopPrecedence p.1
        match t.val with
        | none =>
          ⟨none, t.rest, b.errs ++ w.2 ++ p.2 ++ t.errs ++ [.UnexpectedToken]⟩
        | some test =>
          let q := expect .ParenClose t.rest
          let z := expect .Semicolon q.1
          ⟨some (.DoWhileStatement body test), z.1,
            b.errs ++ w.2 ++ p.2 ++ t.errs ++ q.2 ++ z.2⟩
    | [] => ⟨none, [], []⟩

end

/-- The statement parser's entry point. -/
def parse_statement (c : StatementContext) (ts : List Token) : PRes (Option Statement) :=
  statement (fuelFor ts) c ts

/-- The block parser's entry point. -/
def parse_block (c : StatementContext) (ts : List Token) : PRes (List Statement) :=
  block (fuelFor ts) c ts

/-- Modelled from the spec: function bodies are parsed in
`FunctionContext` (spec Section 4.3; `function_definition` itself lives
outside `src/`). -/
def function_body (ts : List Token) : PRes (List Statement) :=
  parse_block .FunctionContext ts

/-! ## Contract parts (contract.rs) -/

/-- A `StateVariableDeclaration` node (spans and arena handles elided). -/
structure StateVariableDeclaration where
  type_name : TypeName
  visibility : Option StateVariableVisibility
  constant : Option Unit
  name : String
  init : Option Expression

/-- A `StructDefinition` node. -/
structure StructDefinition where
  name : String
  body : List VariableDeclaration

/-- A `Parameter` node: type name and optional name. -/
structure Parameter where
  type_name : TypeName
  name : Option String

/-- A `ModifierDefinition` node. -/
structure ModifierDefinition where
  name : String
  params : List Parameter
  block : List Statement

/-- Modelled from the spec: the `unique_flag` policy — set the flag slot
if empty, record a duplicate-flag error if already set. -/
def unique_flag {α : Type} (slot : Option α) (value : α) :
    Option α × List ParseError :=
  match slot with
  | some _ => (slot, [.DuplicateFlag])
  | none => (some value, [])

/-- The state of the modifier-token loop of
`state_variable_declaration`. -/
structure SVFlags where
  visibility : Option StateVariableVisibility
  constant : Option Unit
  rest : List Token
  errs : List ParseError

/-- The `for _ in 0..2` modifier-token loop of
`state_variable_declaration` (contract.rs): up to two iterations, each
consuming a visibility keyword or `constant` and applying `unique_flag`,
stopping at the first other token. -/
def sv_flag_loop : Nat → Option StateVariableVisibility → Option Unit →
    List Token → SVFlags
  | 0, vis, cons, ts => ⟨vis, cons, ts, []⟩
  | n + 1, vis, cons, ts =>
    match ts with
    | .KeywordPublic :: rest =>
      let u := unique_flag vis .Public
      let r := sv_flag_loop n u.1 cons rest
      ⟨r.visibility, r.constant, r.rest, u.2 ++ r.errs⟩
    | .KeywordInternal :: rest =>
      let u := unique_flag vis .Internal
      let r := sv_flag_loop n u.1 cons rest
      ⟨r.visibility, r.constant, r.rest, u.2 ++ r.errs⟩
    | .KeywordPrivate :: rest =>
      let u := unique_flag vis .Private
      let r := sv_flag_loop n u.1 cons rest
      ⟨r.visibility, r.constant, r.rest, u.2 ++ r.errs⟩
    | .KeywordConstant :: rest =>
      let u := unique_flag cons ()
      let r := sv_flag_loop n vis u.1 rest
      ⟨r.visibility, r.constant, r.rest, u.2 ++ r.errs⟩
    | _ => ⟨vis, cons, ts, []⟩

/-- Source `state_variable_declaration` (contract.rs): a type name (failing
without it), the two-iteration modifier-token loop, the name, an optional
`= expression` initialiser (a missing expression records an error), and
the terminating semicolon. -/
def state_variable_declaration (fuel : Nat) (ts : List Token) :
    PRes (Option StateVariableDeclaration) :=
  let t := type_name fuel .RegularTypeNameContext ts
  match t.val with
  | none => ⟨none, t.rest, t.errs⟩
  | some ty =>
    let f := sv_flag_loop 2 none none t.rest
    let n := expect_str_node f.rest
    let i : Option Expression × List Token × List ParseError :=
      match n.2.1 with
      | .Assign :: restA =>
        let e := expression fuel .TopPrecedence restA
        match e.val with
        | none => (none, e.rest, e.errs ++ [ParseError.UnexpectedToken])
        | some x => (some x, e.rest, e.errs)
      | _ => (none, n.2.1, ([] : List ParseError))
    let z := expect .Semicolon i.2.1
    ⟨some ⟨ty, f.visibility, f.constant, n.1, i.1⟩, z.1,
      t.errs ++ f.errs ++ n.2.2 ++ i.2.2 ++ z.2⟩

/-- The field loop of `struct_defintion`: repeatedly a variable
declaration (in `RegularTypeNameContext`) followed by `expect(Semicolon)`
until a declaration fails to start. -/
def struct_fields_loop (fuel : Nat) (acc : List VariableDeclaration)
    (ts : List Token) : PRes (List VariableDeclaration) :=
  match fuel with
  | 0 => ⟨acc, ts, []⟩
  | fuel + 1 =>
    let d := variable_declaration fuel .RegularTypeNameContext ts
    match d.val with
    | some decl =>
      let s := expect .Semicolon d.rest
      let r := struct_fields_loop fuel (acc ++ [decl]) s.1
      ⟨r.val, r.rest, d.errs ++ s.2 ++ r.errs⟩
    | none => ⟨acc, d.rest, d.errs⟩

/-- Source `struct_defintion` (contract.rs, keeping the source's spelling):
consume `struct`, the name, `{`, then at least one field declaration —
an empty body records an error and yields an empty field list — then
`}`. -/
def struct_defintion (fuel : Nat) (ts : List Token) :
    PRes (Option StructDefinition) :=
  match ts with
  | _ :: rest0 =>
    let n := expect_str_node rest0
    let o := expect .BraceOpen n.2.1
    let d := variable_declaration fuel .RegularTypeNameContext o.1
    let body : PRes (List VariableDeclaration) :=
      match d.val with
      | some decl =>
        let s := expect .Semicolon d.rest
        let r := struct_fields_loop fuel [decl] s.1
        ⟨r.val, r.rest, d.errs ++ s.2 ++ r.errs⟩
      | none => ⟨[], d.rest, d.errs ++ [ParseError.UnexpectedToken]⟩
    let z := expect .BraceClose body.rest
    ⟨some ⟨n.1, body.val⟩, z.1, n.2.2 ++ o.2 ++ body.errs ++ z.2⟩
  | [] => ⟨none, [], []⟩

/-- Modelled from the spec: the comma loop of `parameter_list`. -/
def parameter_list_tail (fuel : Nat) (acc : List Parameter) (ts : List Token) :
    PRes (List Parameter) :=
  match fuel with
  | 0 => ⟨acc, ts, []⟩
  | fuel + 1 =>
    match ts with
    | .Comma :: rest =>
      let t := type_name fuel .RegularTypeNameContext rest
      match t.val with
      | none => ⟨acc, rest, t.errs ++ [.UnexpectedToken]⟩
      | some ty =>
        let nm := allow_str_node t.rest
        let r := parameter_list_tail fuel (acc ++ [⟨ty, nm.1⟩]) nm.2
        ⟨r.val, r.rest, t.errs ++ r.errs⟩
    | _ => ⟨acc, ts, []⟩

/-- Modelled from the spec: `parameter_list` — zero or more parameters,
each a type name with an optional name, separated by commas. -/
def parameter_list (fuel : Nat) (ts : List Token) : PRes (List Parameter) :=
  let t := type_name fuel .RegularTypeNameContext ts
  match t.val with
  | none => ⟨[], t.rest, t.errs⟩
  | some ty =>
    let nm := allow_str_node t.rest
    let r := parameter_list_tail fuel [⟨ty, nm.1⟩] nm.2
    ⟨r.val, r.rest, t.errs ++ r.errs⟩

/-- Source `modifier_definition` (contract.rs): consume `modifier`, the name, an
optional parenthesised parameter list, then the body block parsed in
`ModifierContext`. -/
def modifier_definition (fuel : Nat) (ts : List Token) :
    PRes (Option ModifierDefinition) :=
  match ts with
  | _ :: rest0 =>
    let n := expect_str_node rest0
    let params : PRes (List Parameter) :=
      match n.2.1 with
      | .ParenOpen :: rest1b =>
        let p := parameter_list fuel rest1b
        let k := expect .ParenClose p.rest
        ⟨p.val, k.1, p.errs ++ k.2⟩
      | _ => ⟨[], n.2.1, []⟩
    let b := block fuel .ModifierContext params.rest
    ⟨some ⟨n.1, params.val, b.val⟩, b.rest, n.2.2 ++ params.errs ++ b.errs⟩
  | [] => ⟨none, [], []⟩

/-- Entry point for `state_variable_declaration`. -/
def parse_state_variable_declaration (ts : List Token) :
    PRes (Option StateVariableDeclaration) :=
  state_variable_declaration (fuelFor ts) ts

/-- Entry point for `struct_defintion`. -/
def parse_struct_defintion (ts : List Token) : PRes (Option StructDefinition) :=
  struct_defintion (fuelFor ts) ts

/-- Entry point for `modifier_definition`. -/
def parse_modifier_definition (ts : List Token) : PRes (Option ModifierDefinition) :=
  modifier_definition (fuelFor ts) ts

/-- Entry point for `inferred_definition_statement`. -/
def parse_inferred_definition_statement (ts : List Token) : PRes (Option Statement) :=
  inferred_definition_statement (fuelFor ts) ts

/-! ## Syntactic predicates on statement trees -/

mutual

/-- Whether a statement tree contains a `Placeholder` node anywhere. -/
def containsPlaceholder : Statement → Bool
  | .BlockStatement body => listContainsPlaceholder body
  | .IfStatement _ c a => containsPlaceholder c || optContainsPlaceholder a
  | .WhileStatement _ b => containsPlaceholder b
  | .ForStatement i _ _ b => optContainsPlaceholder i || containsPlaceholder b
  | .DoWhileStatement b _ => containsPlaceholder b
  | .Placeholder => true
  | _ => false

def optContainsPlaceholder : Option Statement → Bool
  | some s => containsPlaceholder s
  | none => false

def listContainsPlaceholder : List Statement → Bool
  | [] => false
  | s :: r => containsPlaceholder s || listContainsPlaceholder r

end

mutual

/-- Whether a statement tree contains a `Continue` or `Break` node that is
not inside the body of a `while`/`for`/`do-while` (loop bodies are the
subtrees where they are legal, so the traversal does not descend into
them; a `for` initialiser is outside the loop body and is traversed). -/
def looseBreakContinue : Statement → Bool
  | .BlockStatement body => listLooseBreakContinue body
  | .IfStatement _ c a => looseBreakContinue c || optLooseBreakContinue a
  | .ForStatement i _ _ _ => optLooseBreakContinue i
  | .ContinueStatement => true
  | .BreakStatement => true
  | _ => false

def optLooseBreakContinue : Option Statement → Bool
  | some s => looseBreakContinue s
  | none => false

def listLooseBreakContinue : List Statement → Bool
  | [] => false
  | s :: r => looseBreakContinue s || listLooseBreakContinue r

end

/-- The statement contexts in which `pre_parse` can never produce a
`Placeholder`: function bodies and loops inside them. -/
def placeholderFreeContext : StatementContext → Bool
  | .FunctionContext => true
  | .FunctionLoopContext => true
  | _ => false

/-- The non-loop statement contexts (where `pre_parse` can never produce
`Continue` or `Break`). -/
def nonLoopContext : StatementContext → Bool
  | .FunctionContext => true
  | .ModifierContext => true
  | _ => false

/-! ## Token-consumption bounds for the expression engine -/

@[simp]
theorem PRes_mk_rest {α : Type} (v : α) (r : List Token) (e : List ParseError) :
    (PRes.mk v r e).rest = r := rfl

theorem expect_length (t : Token) (ts : List Token) :
    ((expect t ts).1).length ≤ ts.length := by
  unfold expect
  split
  · split <;> simp
  · simp

theorem expect_str_node_length (ts : List Token) :
    ((expect_str_node ts).2.1).length ≤ ts.length := by
  unfold expect_str_node
  split <;> simp

/-- Every function of the expression engine consumes tokens monotonically:
the remaining token list never grows, at any fuel. -/
theorem engine_length : ∀ fuel : Nat,
    (∀ ts, ((primary_expression fuel ts).rest).length ≤ ts.length)
    ∧ (∀ P ts, ((expression fuel P ts).rest).length ≤ ts.length)
    ∧ (∀ P left ts, ((nested_expression fuel P left ts).rest).length ≤ ts.length)
    ∧ (∀ h left ts, ((run_handler fuel h left ts).rest).length ≤ ts.length)
    ∧ (∀ ts, ((expression_list fuel ts).rest).length ≤ ts.length)
    ∧ (∀ acc ts, ((expression_list_tail fuel acc ts).rest).length ≤ ts.length) := by
  intro fuel
  induction fuel with
  | zero =>
    refine ⟨?_, ?_, ?_, ?_, ?_, ?_⟩ <;> intros <;>
      simp [primary_expression, expression, nested_expression, run_handler,
        expression_list, expression_list_tail]
  | succ fuel ih =>
    obtain ⟨ihP, ihE, ihN, ihH, ihL, ihT⟩ := ih
    refine ⟨?_, ?_, ?_, ?_, ?_, ?_⟩
    · -- primary_expression
      intro ts
      unfold primary_expression
      try dsimp only
      split <;> try simp
      -- ParenOpen branch
      rename_i rest
      have h1 := ihL rest
      have h2 := expect_length .ParenClose (expression_list fuel rest).rest
      try dsimp only
      (try simp only [PRes_mk_rest, List.length_cons]); omega
    · -- expression
      intro P ts
      unfold expression
      try dsimp only
      have h1 := ihP ts
      split
      · (try simp only [PRes_mk_rest, List.length_cons]); omega
      · rename_i e hsome
        have h2 := ihN P e (primary_expression fuel ts).rest
        try dsimp only
        (try simp only [PRes_mk_rest, List.length_cons]); omega
    · -- nested_expression
      intro P left ts
      unfold nested_expression
      try dsimp only
      split
      · rename_i t rest
        split
        · rename_i h hlut
          have h1 := ihH h left rest
          split
          · rename_i node hnode
            have h2 := ihN P node (run_handler fuel h left rest).rest
            try dsimp only
            (try simp only [PRes_mk_rest, List.length_cons]); omega
          · try dsimp only
            (try simp only [PRes_mk_rest, List.length_cons]); omega
        · simp
      · simp
    · -- run_handler
      intro h left ts
      unfold run_handler
      try dsimp only
      split
      · have h1 := ihL ts
        have h2 := expect_length .ParenClose (expression_list fuel ts).rest
        try dsimp only
        (try simp only [PRes_mk_rest, List.length_cons]); omega
      · have h1 := expect_str_node_length ts
        try dsimp only
        (try simp only [PRes_mk_rest, List.length_cons]); omega
      · have h1 := ihE .TopPrecedence ts
        have h2 := expect_length .BracketClose (expression fuel .TopPrecedence ts).rest
        try dsimp only
        (try simp only [PRes_mk_rest, List.length_cons]); omega
      · simp
      · simp
      · -- HConditional
        have h1 := ihE .Precedence14 ts
        have h2 := expect_length .Colon (expression fuel .Precedence14 ts).rest
        have h3 := ihE .Precedence14 (expect .Colon (expression fuel .Precedence14 ts).rest).1
        split
        · (try simp only [PRes_mk_rest, List.length_cons]); omega
        · try dsimp only
          split <;> ((try simp only [PRes_mk_rest, List.length_cons]); omega)
      · -- HAssign
        have h1 := ihE .TopPrecedence ts
        split <;> ((try simp only [PRes_mk_rest, List.length_cons]); omega)
      · -- HBinary
        rename_i level op
        have h1 := ihE level ts
        split <;> ((try simp only [PRes_mk_rest, List.length_cons]); omega)
    · -- expression_list
      intro ts
      unfold expression_list
      try dsimp only
      have h1 := ihE .TopPrecedence ts
      split
      · (try simp only [PRes_mk_rest, List.length_cons]); omega
      · rename_i x hx
        have h2 := ihT [x] (expression fuel .TopPrecedence ts).rest
        try dsimp only
        (try simp only [PRes_mk_rest, List.length_cons]); omega
    · -- expression_list_tail
      intro acc ts
      unfold expression_list_tail
      try dsimp only
      split
      · rename_i rest
        have h1 := ihE .TopPrecedence rest
        split
        · rename_i x hx
          have h2 := ihT (acc ++ [x]) (expression fuel .TopPrecedence rest).rest
          try dsimp only
          simp only [List.length_cons]
          (try simp only [PRes_mk_rest, List.length_cons]); omega
        · have h2 := ihT acc (expression fuel .TopPrecedence rest).rest
          try dsimp only
          simp only [List.length_cons]
          (try simp only [PRes_mk_rest, List.length_cons]); omega
      · simp

/-! ## Context invariants: placeholders and break/continue -/

theorem listContainsPlaceholder_append (a b : List Statement) :
    listContainsPlaceholder (a ++ b)
      = (listContainsPlaceholder a || listContainsPlaceholder b) := by
  induction a with
  | nil => simp [listContainsPlaceholder]
  | cons s r ih => simp [listContainsPlaceholder, ih, Bool.or_assoc]

theorem listLooseBreakContinue_append (a b : List Statement) :
    listLooseBreakContinue (a ++ b)
      = (listLooseBreakContinue a || listLooseBreakContinue b) := by
  induction a with
  | nil => simp [listLooseBreakContinue]
  | cons s r ih => simp [listLooseBreakContinue, ih, Bool.or_assoc]

theorem placeholderFreeContext_loop (c : StatementContext)
    (h : placeholderFreeContext c = true) :
    placeholderFreeContext c.loopContext = true := by
  cases c <;> simp_all [placeholderFreeContext, StatementContext.loopContext]

/-- Lemma: `token_statement` only ever yields the statement it was given. -/
theorem token_statement_val (s0 : Statement) (ts : List Token) (s : Statement)
    (h : (token_statement s0 ts).val = some s) : s = s0 := by
  unfold token_statement at h
  split at h
  · dsimp only at h
    exact (Option.some_injective _ h).symm
  · simp at h

/-- In `FunctionContext` and `FunctionLoopContext`, `pre_parse` never
yields a `Placeholder` (it yields nothing, or `continue`/`break`). -/
theorem pre_parse_no_placeholder (c : StatementContext) (ts : List Token)
    (s : Statement) (hc : placeholderFreeContext c = true)
    (h : (pre_parse c ts).val = some s) : containsPlaceholder s = false := by
  cases c with
  | FunctionContext => simp [pre_parse] at h
  | ModifierContext => simp [placeholderFreeContext] at hc
  | ModifierLoopContext => simp [placeholderFreeContext] at hc
  | FunctionLoopContext =>
    simp only [pre_parse] at h
    split at h
    · have := token_statement_val _ _ _ h
      subst this
      simp [containsPlaceholder]
    · have := token_statement_val _ _ _ h
      subst this
      simp [containsPlaceholder]
    · simp at h

/-- In the non-loop contexts, `pre_parse` never yields `continue` or
`break` (it yields nothing, or a `Placeholder`). -/
theorem pre_parse_no_loose (c : StatementContext) (ts : List Token)
    (s : Statement) (hc : nonLoopContext c = true)
    (h : (pre_parse c ts).val = some s) : looseBreakContinue s = false := by
  cases c with
  | FunctionContext => simp [pre_parse] at h
  | FunctionLoopContext => simp [nonLoopContext] at hc
  | ModifierLoopContext => simp [nonLoopContext] at hc
  | ModifierContext =>
    simp only [pre_parse] at h
    split at h
    · split at h
      · have := token_statement_val _ _ _ h
        subst this
        simp [looseBreakContinue]
      · simp at h
    · simp at h

/-- Lemma: `inferred_definition_statement` only produces
`InferredDefinitionStatement` nodes, which contain no nested
statements. -/
theorem inferred_definition_statement_plain (fuel : Nat) (ts : List Token)
    (s : Statement) (h : (inferred_definition_statement fuel ts).val = some s) :
    containsPlaceholder s = false ∧ looseBreakContinue s = false := by
  unfold inferred_definition_statement at h
  split at h
  · dsimp only at h
    split at h
    · simp at h
    · dsimp only at h
      have := Option.some_injective _ h
      subst this
      constructor <;> simp [containsPlaceholder, looseBreakContinue]
  · simp at h

/-- Lemma: `expression_statement` only produces `ExpressionStatement` nodes. -/
theorem expression_statement_plain (fuel : Nat) (ts : List Token)
    (s : Statement) (h : (expression_statement fuel ts).val = some s) :
    containsPlaceholder s = false ∧ looseBreakContinue s = false := by
  unfold expression_statement at h
  dsimp only at h
  split at h
  · simp at h
  · dsimp only at h
    have := Option.some_injective _ h
    subst this
    constructor <;> simp [containsPlaceholder, looseBreakContinue]

/-- Lemma: `variable_definition_statement` only produces
`VariableDefinitionStatement` nodes. -/
theorem variable_definition_statement_plain (fuel : Nat) (ts : List Token)
    (s : Statement) (h : (variable_definition_statement fuel ts).val = some s) :
    containsPlaceholder s = false ∧ looseBreakContinue s = false := by
  unfold variable_definition_statement at h
  dsimp only at h
  split at h
  · simp at h
  · split at h <;>
    · dsimp only at h
      have := Option.some_injective _ h
      subst this
      constructor <;> simp [containsPlaceholder, looseBreakContinue]

/-- Lemma: `simple_statement` produces only definition or expression statement
nodes, which contain no nested statements. -/
theorem simple_statement_plain (fuel : Nat) (ts : List Token)
    (s : Statement) (h : (simple_statement fuel ts).val = some s) :
    containsPlaceholder s = false ∧ looseBreakContinue s = false := by
  unfold simple_statement at h
  split at h
  · exact inferred_definition_statement_plain _ _ _ h
  · dsimp only at h
    split at h
    · exact expression_statement_plain _ _ _ h
    · rename_i heq
      exact variable_definition_statement_plain fuel ts s (heq ▸ h)

/-- Lemma: `return_statement` only produces `ReturnStatement` nodes. -/
theorem return_statement_plain (fuel : Nat) (ts : List Token)
    (s : Statement) (h : (return_statement fuel ts).val = some s) :
    containsPlaceholder s = false ∧ looseBreakContinue s = false := by
  unfold return_statement at h
  split at h
  · dsimp only at h
    have := Option.some_injective _ h
    subst this
    constructor <;> simp [containsPlaceholder, looseBreakContinue]
  · simp at h

/-- Lemma: `inline_assembly_statement` only produces `InlineAssemblyStatement`
nodes. -/
theorem inline_assembly_statement_plain (ts : List Token)
    (s : Statement) (h : (inline_assembly_statement ts).val = some s) :
    containsPlaceholder s = false ∧ looseBreakContinue s = false := by
  unfold inline_assembly_statement at h
  split at h
  · dsimp only at h
    split at h
    · dsimp only at h
      have := Option.some_injective _ h
      subst this
      constructor <;> simp [containsPlaceholder, looseBreakContinue]
    · simp at h
  · simp at h

/-- The no-placeholder invariant: in `FunctionContext` and
`FunctionLoopContext` (the contexts reachable from a function body), no
parsed statement ever contains a `Placeholder` node, at any fuel. -/
theorem statement_no_placeholder : ∀ fuel : Nat,
    (∀ c ts s, placeholderFreeContext c = true →
      (statement fuel c ts).val = some s → containsPlaceholder s = false)
    ∧ (∀ c ts, placeholderFreeContext c = true →
      listContainsPlaceholder (block fuel c ts).val = false)
    ∧ (∀ c acc ts, placeholderFreeContext c = true →
      listContainsPlaceholder acc = false →
      listContainsPlaceholder (block_body fuel c acc ts).val = false)
    ∧ (∀ c ts s, placeholderFreeContext c = true →
      (if_statement fuel c ts).val = some s → containsPlaceholder s = false)
    ∧ (∀ c ts s, placeholderFreeContext c = true →
      (while_statement fuel c ts).val = some s → containsPlaceholder s = false)
    ∧ (∀ c ts s, placeholderFreeContext c = true →
      (for_statement fuel c ts).val = some s → containsPlaceholder s = false)
    ∧ (∀ c ts s, placeholderFreeContext c = true →
      (do_while_statement fuel c ts).val = some s → containsPlaceholder s = false) := by
  intro fuel
  induction fuel with
  | zero =>
    refine ⟨?_, ?_, ?_, ?_, ?_, ?_, ?_⟩ <;> intros <;>
      simp_all [statement, block, block_body, if_statement, while_statement,
        for_statement, do_while_statement, listContainsPlaceholder]
  | succ fuel ih =>
    obtain ⟨ihS, ihB, ihBB, ihIf, ihW, ihF, ihD⟩ := ih
    refine ⟨?_, ?_, ?_, ?_, ?_, ?_, ?_⟩
    · -- statement
      intro c ts s hc h
      unfold statement at h
      dsimp only at h
      split at h
      · rename_i s' heq
        dsimp only at h
        obtain rfl := Option.some_injective _ h
        exact pre_parse_no_placeholder c ts s' hc heq
      · split at h
        · dsimp only at h
          obtain rfl := Option.some_injective _ h
          simp only [containsPlaceholder]
          exact ihB c _ hc
        · exact ihIf c _ s hc h
        · exact ihW c _ s hc h
        · exact ihF c _ s hc h
        · exact ihD c _ s hc h
        · exact (return_statement_plain _ _ _ h).1
        · have := token_statement_val _ _ _ h
          subst this
          simp [containsPlaceholder]
        · exact (inline_assembly_statement_plain _ _ h).1
        · exact (inferred_definition_statement_plain _ _ _ h).1
        · try dsimp only at h
          split at h
          · exact (expression_statement_plain _ _ _ h).1
          · exact (variable_definition_statement_plain _ _ _ h).1
    · -- block
      intro c ts hc
      unfold block
      split
      · try dsimp only
        exact ihBB c [] _ hc (by simp [listContainsPlaceholder])
      · simp [listContainsPlaceholder]
    · -- block_body
      intro c acc ts hc hacc
      unfold block_body
      try dsimp only
      split
      · rename_i st heq
        refine ihBB c (acc ++ [st]) _ hc ?_
        rw [listContainsPlaceholder_append]
        have hst := ihS c ts st hc heq
        simp [listContainsPlaceholder, hacc, hst]
      · exact hacc
    · -- if_statement
      intro c ts s hc h
      unfold if_statement at h
      dsimp only at h
      split at h
      · split at h
        · simp at h
        · split at h
          · simp at h
          · rename_i consequent hcs
            have hcons := ihS c _ consequent hc hcs
            split at h
            · rename_i rest3 helse
              dsimp only at h
              obtain rfl := Option.some_injective _ h
              simp only [containsPlaceholder, hcons, Bool.false_or]
              cases halt : (statement fuel c rest3).val with
              | none => simp [optContainsPlaceholder]
              | some a =>
                simp only [optContainsPlaceholder]
                exact ihS c rest3 a hc halt
            · dsimp only at h
              obtain rfl := Option.some_injective _ h
              simp [containsPlaceholder, optContainsPlaceholder, hcons]
      · simp at h
    · -- while_statement
      intro c ts s hc h
      unfold while_statement at h
      dsimp only at h
      split at h
      · split at h
        · simp at h
        · split at h
          · simp at h
          · rename_i body hb
            dsimp only at h
            obtain rfl := Option.some_injective _ h
            simp only [containsPlaceholder]
            exact ihS c.loopContext _ body (placeholderFreeContext_loop c hc) hb
      · simp at h
    · -- for_statement
      intro c ts s hc h
      unfold for_statement at h
      dsimp only at h
      split at h
      · split at h
        · simp at h
        · rename_i body hb
          dsimp only at h
          obtain rfl := Option.some_injective _ h
          simp only [containsPlaceholder]
          have hbody := ihS c.loopContext _ body (placeholderFreeContext_loop c hc) hb
          rw [hbody]
          simp only [Bool.or_false]
          cases hi : (simple_statement fuel (expect .ParenOpen _).1).val with
          | none => simp [optContainsPlaceholder, hi]
          | some si =>
            simp only [hi, optContainsPlaceholder]
            exact (simple_statement_plain _ _ _ hi).1
      · simp at h
    · -- do_while_statement
      intro c ts s hc h
      unfold do_while_statement at h
      dsimp only at h
      split at h
      · split at h
        · simp at h
        · rename_i body hb
          split at h
          · simp at h
          · dsimp only at h
            obtain rfl := Option.some_injective _ h
            simp only [containsPlaceholder]
            exact ihS c.loopContext _ body (placeholderFreeContext_loop c hc) hb
      · simp at h

/-- Whatever `while_statement` produces is a `WhileStatement` node, whose
break/continue occurrences are all inside the loop body. -/
theorem while_statement_loose (fuel : Nat) (c : StatementContext) (ts : List Token)
    (s : Statement) (h : (while_statement fuel c ts).val = some s) :
    looseBreakContinue s = false := by
  cases fuel with
  | zero => simp [while_statement] at h
  | succ fuel =>
    unfold while_statement at h
    try dsimp only at h
    split at h
    · split at h
      · simp at h
      · split at h
        · simp at h
        · dsimp only at h
          obtain rfl := Option.some_injective _ h
          simp [looseBreakContinue]
    · simp at h

/-- Whatever `do_while_statement` produces is a `DoWhileStatement` node. -/
theorem do_while_statement_loose (fuel : Nat) (c : StatementContext) (ts : List Token)
    (s : Statement) (h : (do_while_statement fuel c ts).val = some s) :
    looseBreakContinue s = false := by
  cases fuel with
  | zero => simp [do_while_statement] at h
  | succ fuel =>
    unfold do_while_statement at h
    try dsimp only at h
    split at h
    · split at h
      · simp at h
      · split at h
        · simp at h
        · dsimp only at h
          obtain rfl := Option.some_injective _ h
          simp [looseBreakContinue]
    · simp at h

/-- Whatever `for_statement` produces is a `ForStatement` node whose
initialiser is a simple statement, so it carries no loose
break/continue. -/
theorem for_statement_loose (fuel : Nat) (c : StatementContext) (ts : List Token)
    (s : Statement) (h : (for_statement fuel c ts).val = some s) :
    looseBreakContinue s = false := by
  cases fuel with
  | zero => simp [for_statement] at h
  | succ fuel =>
    unfold for_statement at h
    try dsimp only at h
    split at h
    · split at h
      · simp at h
      · dsimp only at h
        obtain rfl := Option.some_injective _ h
        simp only [looseBreakContinue]
        cases hi : (simple_statement fuel (expect .ParenOpen _).1).val with
        | none => simp [optLooseBreakContinue, hi]
        | some si =>
          simp only [hi, optLooseBreakContinue]
          exact (simple_statement_plain _ _ _ hi).2
    · simp at h

/-- The loop-statement invariant: in the non-loop contexts
(`FunctionContext` and `ModifierContext`), a parsed statement never
contains a `Continue` or `Break` node outside a loop body, at any
fuel. -/
theorem statement_no_loose_break_continue : ∀ fuel : Nat,
    (∀ c ts s, nonLoopContext c = true →
      (statement fuel c ts).val = some s → looseBreakContinue s = false)
    ∧ (∀ c ts, nonLoopContext c = true →
      listLooseBreakContinue (block fuel c ts).val = false)
    ∧ (∀ c acc ts, nonLoopContext c = true →
      listLooseBreakContinue acc = false →
      listLooseBreakContinue (block_body fuel c acc ts).val = false)
    ∧ (∀ c ts s, nonLoopContext c = true →
      (if_statement fuel c ts).val = some s → looseBreakContinue s = false) := by
  intro fuel
  induction fuel with
  | zero =>
    refine ⟨?_, ?_, ?_, ?_⟩ <;> intros <;>
      simp_all [statement, block, block_body, if_statement, listLooseBreakContinue]
  | succ fuel ih =>
    obtain ⟨ihS, ihB, ihBB, ihIf⟩ := ih
    refine ⟨?_, ?_, ?_, ?_⟩
    · -- statement
      intro c ts s hc h
      unfold statement at h
      dsimp only at h
      split at h
      · rename_i s' heq
        dsimp only at h
        obtain rfl := Option.some_injective _ h
        exact pre_parse_no_loose c ts s' hc heq
      · split at h
        · dsimp only at h
          obtain rfl := Option.some_injective _ h
          simp only [looseBreakContinue]
          exact ihB c _ hc
        · exact ihIf c _ s hc h
        · exact while_statement_loose fuel c _ s h
        · exact for_statement_loose fuel c _ s h
        · exact do_while_statement_loose fuel c _ s h
        · exact (return_statement_plain _ _ _ h).2
        · have := token_statement_val _ _ _ h
          subst this
          simp [looseBreakContinue]
        · exact (inline_assembly_statement_plain _ _ h).2
        · exact (inferred_definition_statement_plain _ _ _ h).2
        · try dsimp only at h
          split at h
          · exact (expression_statement_plain _ _ _ h).2
          · exact (variable_definition_statement_plain _ _ _ h).2
    · -- block
      intro c ts hc
      unfold block
      split
      · try dsimp only
        exact ihBB c [] _ hc (by simp [listLooseBreakContinue])
      · simp [listLooseBreakContinue]
    · -- block_body
      intro c acc ts hc hacc
      unfold block_body
      try dsimp only
      split
      · rename_i st heq
        refine ihBB c (acc ++ [st]) _ hc ?_
        rw [listLooseBreakContinue_append]
        have hst := ihS c ts st hc heq
        simp [listLooseBreakContinue, hacc, hst]
      · exact hacc
    · -- if_statement
      intro c ts s hc h
      unfold if_statement at h
      dsimp only at h
      split at h
      · split at h
        · simp at h
        · split at h
          · simp at h
          · rename_i consequent hcs
            have hcons := ihS c _ consequent hc hcs
            split at h
            · rename_i rest3 helse
              dsimp only at h
              obtain rfl := Option.some_injective _ h
              simp only [looseBreakContinue, hcons, Bool.false_or]
              cases halt : (statement fuel c rest3).val with
              | none => simp [optLooseBreakContinue]
              | some a =>
                simp only [optLooseBreakContinue]
                exact ihS c rest3 a hc halt
            · dsimp only at h
              obtain rfl := Option.some_injective _ h
              simp [looseBreakContinue, optLooseBreakContinue, hcons]
      · simp at h

/-! ## Auxiliary material for the claim theorems -/

/-- Returns `true` iff the optional produced statement is placeholder-free. -/
def noPlaceholderProduced : Option Statement → Bool
  | some s => !containsPlaceholder s
  | none => true

/-- Returns `true` iff the optional produced statement has no loose
break/continue. -/
def noLooseProduced : Option Statement → Bool
  | some s => !looseBreakContinue s
  | none => true

/-- The token the lexer yields for each assignment operator. -/
def assignment_token : AssignmentOperator → Token
  | .Plain => .Assign
  | .Addition => .AssignAddition
  | .Subtraction => .AssignSubtraction
  | .Multiplication => .AssignMultiplication
  | .Division => .AssignDivision
  | .Remainder => .AssignRemainder
  | .BitShiftLeft => .AssignBitShiftLeft
  | .BitShiftRight => .AssignBitShiftRight
  | .BitAnd => .AssignBitAnd
  | .BitXor => .AssignBitXor
  | .BitOr => .AssignBitOr

/-- A struct field's type in the fragment used by the struct theorems:
an elementary type or a user-defined type name. -/
inductive FieldType
| ElemField (t : ElementaryTypeName)
| UserField (name : String)

/-- A struct field: type, optional storage location, name. -/
structure FieldSpec where
  ty : FieldType
  loc : Option StorageLocation
  id : String

def fieldTypeToken : FieldType → Token
  | .ElemField t => .TypeElementary t
  | .UserField s => .Identifier s

def fieldTypeName : FieldType → TypeName
  | .ElemField t => .ElementaryType t
  | .UserField s => .UserDefinedType s

def locTokens : Option StorageLocation → List Token
  | none => []
  | some .Memory => [.KeywordMemory]
  | some .Storage => [.KeywordStorage]
  | some .Calldata => [.KeywordCalldata]

/-- The tokens of one field declaration, without the semicolon. -/
def fieldTokens (f : FieldSpec) : List Token :=
  fieldTypeToken f.ty :: (locTokens f.loc ++ [.Identifier f.id])

/-- The tokens of one field declaration with its terminating semicolon. -/
def fieldLine (f : FieldSpec) : List Token :=
  fieldTokens f ++ [.Semicolon]

/-- The `VariableDeclaration` node a field parses to. -/
def fieldDecl (f : FieldSpec) : VariableDeclaration :=
  ⟨fieldTypeName f.ty, f.loc, f.id⟩

/-- The token stream of a whole struct definition. -/
def structTokens (name : String) (fields : List FieldSpec) : List Token :=
  .DeclarationStruct :: .Identifier name :: .BraceOpen ::
    ((fields.map fieldLine).flatten ++ [.BraceClose])

/-- A well-formed field parses, at any fuel, to exactly its declaration,
consuming exactly its tokens. -/
theorem variable_declaration_field (fuel : Nat) (f : FieldSpec) (rest : List Token) :
    variable_declaration fuel .RegularTypeNameContext (fieldTokens f ++ rest)
      = ⟨some (fieldDecl f), rest, []⟩ := by
  obtain ⟨ty, loc, id⟩ := f
  cases ty <;> rcases loc with _ | l <;>
    first
    | (cases l <;> cases fuel <;>
        simp [variable_declaration, type_name, array_suffixes, allow_location,
          fieldTokens, fieldDecl, fieldTypeToken, fieldTypeName, locTokens])
    | (cases fuel <;>
        simp [variable_declaration, type_name, array_suffixes, allow_location,
          fieldTokens, fieldDecl, fieldTypeToken, fieldTypeName, locTokens])

/-- The struct field loop parses a sequence of field lines in order,
leaving the closing brace and no errors. -/
theorem struct_fields_loop_fields (fs : List FieldSpec) : ∀ (k : Nat)
    (acc : List VariableDeclaration),
    struct_fields_loop (k + fs.length + 1) acc ((fs.map fieldLine).flatten ++ [.BraceClose])
      = ⟨acc ++ fs.map fieldDecl, [.BraceClose], []⟩ := by
  induction fs with
  | nil =>
    intro k acc
    simp only [List.map_nil, List.flatten_nil, List.nil_append, List.length_nil,
      Nat.add_zero, List.map_nil]
    unfold struct_fields_loop
    simp [variable_declaration, type_name]
  | cons f fs ih =>
    intro k acc
    have hline : ((f :: fs).map fieldLine).flatten ++ [Token.BraceClose]
        = fieldTokens f ++ (.Semicolon :: ((fs.map fieldLine).flatten ++ [.BraceClose])) := by
      simp [fieldLine, List.flatten]
    rw [hline]
    show struct_fields_loop (k + fs.length + 1 + 1) acc _ = _
    unfold struct_fields_loop
    rw [variable_declaration_field]
    dsimp only
    simp only [expect_cons_self]
    rw [ih k (acc ++ [fieldDecl f])]
    simp

/-! ## Claim theorems -/

/-- C1: the claim says `a + b + c` parses left-nested, `((a+b)+c)`.  The
code disagrees: every `binary!` handler parses its right operand at its
own precedence level, whose lookup table still contains the same-level
operators, so chains of the same left-associative operator come out
RIGHT-nested.  This theorem evaluates the parser at the claim's failing
input `a + b + c` (and at `a - b - c`, where the tree shape changes the
meaning): both yield `a ⊕ (b ⊕ c)`. -/
theorem c1_same_level_chain_is_right_nested :
    (parse_expression [.Identifier "a", .OperatorAddition, .Identifier "b",
        .OperatorAddition, .Identifier "c"]).val
      = some (.BinaryExpression (.IdentifierExpression "a") .Addition
          (.BinaryExpression (.IdentifierExpression "b") .Addition
            (.IdentifierExpression "c")))
    ∧ (parse_expression [.Identifier "a", .OperatorSubtraction, .Identifier "b",
        .OperatorSubtraction, .Identifier "c"]).val
      = some (.BinaryExpression (.IdentifierExpression "a") .Subtraction
          (.BinaryExpression (.IdentifierExpression "b") .Subtraction
            (.IdentifierExpression "c"))) :=
  ⟨rfl, rfl⟩

/-- C2: multiplication binds tighter than addition: `2 * 2 + 2` parses as
`Binary(+, Binary(*, 2, 2), 2)` and `2 + 2 * 2` as
`Binary(+, 2, Binary(*, 2, 2))`, exactly as in the source's
`operator_precedence` test. -/
theorem c2_multiplication_binds_tighter_than_addition :
    (parse_expression [.LiteralInteger "2", .OperatorMultiplication, .LiteralInteger "2",
        .OperatorAddition, .LiteralInteger "2"]).val
      = some (.BinaryExpression
          (.BinaryExpression (.IntegerNumber "2") .Multiplication (.IntegerNumber "2"))
          .Addition (.IntegerNumber "2"))
    ∧ (parse_expression [.LiteralInteger "2", .OperatorAddition, .LiteralInteger "2",
        .OperatorMultiplication, .LiteralInteger "2"]).val
      = some (.BinaryExpression (.IntegerNumber "2")
          .Addition
          (.BinaryExpression (.IntegerNumber "2") .Multiplication (.IntegerNumber "2"))) :=
  ⟨rfl, rfl⟩

/-- C5: assignment is right-associative at the top precedence level:
`a = b = c` parses as `Assignment(=, a, Assignment(=, b, c))`, and the
same right-nesting holds for a chain of any compound assignment
operator. -/
theorem c5_assignment_right_associative :
    (parse_expression [.Identifier "a", .Assign, .Identifier "b", .Assign,
        .Identifier "c"]).val
      = some (.AssignmentExpression .Plain (.IdentifierExpression "a")
          (.AssignmentExpression .Plain (.IdentifierExpression "b")
            (.IdentifierExpression "c")))
    ∧ ∀ op : AssignmentOperator,
      (parse_expression [.Identifier "a", assignment_token op, .Identifier "b",
          assignment_token op, .Identifier "c"]).val
        = some (.AssignmentExpression op (.IdentifierExpression "a")
            (.AssignmentExpression op (.IdentifierExpression "b")
              (.IdentifierExpression "c"))) := by
  refine ⟨rfl, ?_⟩
  intro op
  cases op <;> rfl

/-- C6: the conditional operator is right-associative:
`a ? b : c ? d : e` parses as `Conditional(a, b, Conditional(c, d, e))`,
and the `?` token is admissible in the `Precedence14` table (the level at
which `COND` parses its consequent and alternate). -/
theorem c6_conditional_right_associative :
    (parse_expression [.Identifier "a", .OperatorConditional, .Identifier "b",
        .Colon, .Identifier "c", .OperatorConditional, .Identifier "d", .Colon,
        .Identifier "e"]).val
      = some (.ConditionalExpression (.IdentifierExpression "a")
          (.IdentifierExpression "b")
          (.ConditionalExpression (.IdentifierExpression "c")
            (.IdentifierExpression "d") (.IdentifierExpression "e")))
    ∧ lut .Precedence14 .OperatorConditional = some .HConditional :=
  ⟨rfl, rfl⟩

/-- C3 (counterexample to the claim as stated): writing `_;` in a
function-body context does NOT emit an error — it parses cleanly as an
expression statement over the identifier `_`, with an empty error
list. -/
theorem c3_counterexample_function_placeholder_no_error :
    parse_statement .FunctionContext [.Identifier "_", .Semicolon]
      = ⟨some (.ExpressionStatement (.IdentifierExpression "_")), [], []⟩ :=
  rfl

/-- C3 (amended): `_;` produces a `Placeholder` only in modifier
contexts: a `ModifierDefinition` body may contain `Placeholder`
statements; statements and blocks parsed in `FunctionContext` (and
therefore function bodies) never contain a `Placeholder` node at any
fuel; and `_;` in a function body parses as an expression statement over
the identifier `_` with no error. -/
theorem c3_placeholder_only_in_modifier_contexts :
    parse_modifier_definition [.DeclarationModifier, .Identifier "m", .BraceOpen,
        .Identifier "_", .Semicolon, .BraceClose]
      = ⟨some ⟨"m", [], [.Placeholder]⟩, [], []⟩
    ∧ (∀ fuel ts, noPlaceholderProduced (statement fuel .FunctionContext ts).val = true)
    ∧ (∀ fuel ts, listContainsPlaceholder (block fuel .FunctionContext ts).val = false)
    ∧ parse_statement .FunctionContext [.Identifier "_", .Semicolon]
      = ⟨some (.ExpressionStatement (.IdentifierExpression "_")), [], []⟩ := by
  refine ⟨rfl, ?_, ?_, rfl⟩
  · intro fuel ts
    cases h : (statement fuel .FunctionContext ts).val with
    | none => simp [noPlaceholderProduced]
    | some s =>
      have hs := (statement_no_placeholder fuel).1 .FunctionContext ts s rfl h
      simp [noPlaceholderProduced, hs]
  · intro fuel ts
    exact (statement_no_placeholder fuel).2.1 .FunctionContext ts rfl

/-- C4: `Break`/`Continue` nodes appear only inside loop bodies:
statements and blocks parsed in the non-loop contexts carry no loose
break/continue at any fuel; `continue;` and `break;` directly in a
function body produce no statement node, and a block containing them
records an error; inside a `while` body they do parse (to a node inside
the loop-body subtree). -/
theorem c4_break_continue_only_in_loops :
    (∀ fuel ts, noLooseProduced (statement fuel .FunctionContext ts).val = true)
    ∧ (∀ fuel ts, noLooseProduced (statement fuel .ModifierContext ts).val = true)
    ∧ (∀ fuel ts, listLooseBreakContinue (block fuel .FunctionContext ts).val = false)
    ∧ (parse_statement .FunctionContext [.KeywordContinue, .Semicolon]).val = none
    ∧ (parse_statement .FunctionContext [.KeywordBreak, .Semicolon]).val = none
    ∧ parse_block .FunctionContext [.BraceOpen, .KeywordContinue, .Semicolon, .BraceClose]
      = ⟨[], [.KeywordContinue, .Semicolon, .BraceClose], [.UnexpectedToken]⟩
    ∧ (parse_statement .FunctionContext [.KeywordWhile, .ParenOpen, .LiteralTrue,
        .ParenClose, .BraceOpen, .KeywordContinue, .Semicolon, .BraceClose]).val
      = some (.WhileStatement (.BoolLiteral true)
          (.BlockStatement [.ContinueStatement])) := by
  refine ⟨?_, ?_, ?_, rfl, rfl, rfl, rfl⟩
  · intro fuel ts
    cases h : (statement fuel .FunctionContext ts).val with
    | none => simp [noLooseProduced]
    | some s =>
      have hs := (statement_no_loose_break_continue fuel).1 .FunctionContext ts s rfl h
      simp [noLooseProduced, hs]
  · intro fuel ts
    cases h : (statement fuel .ModifierContext ts).val with
    | none => simp [noLooseProduced]
    | some s =>
      have hs := (statement_no_loose_break_continue fuel).1 .ModifierContext ts s rfl h
      simp [noLooseProduced, hs]
  · intro fuel ts
    exact (statement_no_loose_break_continue fuel).2.1 .FunctionContext ts rfl

/-- The modifier-token loop runs at most `n` iterations, each consuming
one token: it consumes at most `n` tokens. -/
theorem sv_flag_loop_length : ∀ (n : Nat) (vis : Option StateVariableVisibility)
    (cons : Option Unit) (ts : List Token),
    ts.length ≤ (sv_flag_loop n vis cons ts).rest.length + n := by
  intro n
  induction n with
  | zero => intro vis cons ts; simp [sv_flag_loop]
  | succ n ih =>
    intro vis cons ts
    unfold sv_flag_loop
    split
    · rename_i rest
      have := ih (unique_flag vis .Public).1 cons rest
      dsimp only
      simp only [List.length_cons]
      omega
    · rename_i rest
      have := ih (unique_flag vis .Internal).1 cons rest
      dsimp only
      simp only [List.length_cons]
      omega
    · rename_i rest
      have := ih (unique_flag vis .Private).1 cons rest
      dsimp only
      simp only [List.length_cons]
      omega
    · rename_i rest
      have := ih vis (unique_flag cons ()).1 rest
      dsimp only
      simp only [List.length_cons]
      omega
    · simp

/-- C7: state-variable parsing consumes at most two modifier tokens after
the type name — one visibility and/or one `constant`, in either order —
a duplicated flag records a `DuplicateFlag` error with the node still
produced, and the `for _ in 0..2` loop consumes at most two tokens. -/
theorem c7_state_variable_flags :
    parse_state_variable_declaration [.TypeElementary (.Int 4), .KeywordPublic,
        .KeywordConstant, .Identifier "x", .Assign, .LiteralInteger "10", .Semicolon]
      = ⟨some ⟨.ElementaryType (.Int 4), some .Public, some (), "x",
          some (.IntegerNumber "10")⟩, [], []⟩
    ∧ parse_state_variable_declaration [.TypeElementary (.Uint 32), .KeywordConstant,
        .KeywordPublic, .Identifier "x", .Semicolon]
      = ⟨some ⟨.ElementaryType (.Uint 32), some .Public, some (), "x", none⟩, [], []⟩
    ∧ parse_state_variable_declaration [.TypeElementary (.Uint 32), .KeywordPublic,
        .KeywordPublic, .Identifier "doge", .Semicolon]
      = ⟨some ⟨.ElementaryType (.Uint 32), some .Public, none, "doge", none⟩,
          [], [.DuplicateFlag]⟩
    ∧ parse_state_variable_declaration [.TypeElementary (.Uint 32), .KeywordPublic,
        .KeywordInternal, .Identifier "x", .Semicolon]
      = ⟨some ⟨.ElementaryType (.Uint 32), some .Public, none, "x", none⟩,
          [], [.DuplicateFlag]⟩
    ∧ ∀ (vis : Option StateVariableVisibility) (cons : Option Unit) (ts : List Token),
      ts.length ≤ (sv_flag_loop 2 vis cons ts).rest.length + 2 := by
  refine ⟨rfl, rfl, rfl, rfl, ?_⟩
  intro vis cons ts
  exact sv_flag_loop_length 2 vis cons ts

/-- C8: struct definitions require at least one field: an empty body
records an error and still yields a `StructDefinition` node with an empty
field list, while a struct with one or more `type [location]? name;`
fields parses without error, preserving field order. -/
theorem c8_struct_requires_at_least_one_field :
    parse_struct_defintion [.DeclarationStruct, .Identifier "S", .BraceOpen, .BraceClose]
      = ⟨some ⟨"S", []⟩, [], [.UnexpectedToken]⟩
    ∧ ∀ (k : Nat) (name : String) (f : FieldSpec) (fs : List FieldSpec),
      struct_defintion (k + fs.length + 1) (structTokens name (f :: fs))
        = ⟨some ⟨name, (f :: fs).map fieldDecl⟩, [], []⟩ := by
  refine ⟨rfl, ?_⟩
  intro k name f fs
  have hline : structTokens name (f :: fs)
      = .DeclarationStruct :: .Identifier name :: .BraceOpen ::
        (fieldTokens f ++ (.Semicolon :: ((fs.map fieldLine).flatten ++ [.BraceClose]))) := by
    simp [structTokens, fieldLine]
  rw [hline]
  unfold struct_defintion
  dsimp only
  simp only [expect_str_node]
  simp only [expect_cons_self]
  rw [variable_declaration_field]
  dsimp only
  simp only [expect_cons_self]
  rw [struct_fields_loop_fields fs k [fieldDecl f]]
  simp

/-- C9: an inferred-definition statement accepts a single identifier or a
parenthesised tuple pattern with holes (`var (a,,c) = (1,2,3)` yields ids
`[some "a", none, some "c"]`), and the `=` with an initialising
expression is mandatory: either absence records an error (and no node is
produced). -/
theorem c9_inferred_definition_statement :
    parse_inferred_definition_statement [.DeclarationVar, .Identifier "foo", .Assign,
        .LiteralInteger "10", .Semicolon]
      = ⟨some (.InferredDefinitionStatement [some "foo"] (.IntegerNumber "10")), [], []⟩
    ∧ parse_inferred_definition_statement [.DeclarationVar, .ParenOpen, .Identifier "a",
        .Comma, .Comma, .Identifier "c", .ParenClose, .Assign, .ParenOpen,
        .LiteralInteger "1", .Comma, .LiteralInteger "2", .Comma, .LiteralInteger "3",
        .ParenClose, .Semicolon]
      = ⟨some (.InferredDefinitionStatement [some "a", none, some "c"]
          (.TupleExpression [.IntegerNumber "1", .IntegerNumber "2",
            .IntegerNumber "3"])), [], []⟩
    ∧ parse_inferred_definition_statement [.DeclarationVar, .Identifier "x", .Semicolon]
      = ⟨none, [.Semicolon], [.UnexpectedToken, .UnexpectedToken]⟩
    ∧ parse_inferred_definition_statement [.DeclarationVar, .Identifier "x", .Assign,
        .Semicolon]
      = ⟨none, [.Semicolon], [.UnexpectedToken]⟩ :=
  ⟨rfl, rfl, rfl, rfl⟩

/-- C10: every nested handler, fired from any precedence lookup table,
makes strict progress: counting the operator token it consumes before
running, the tokens remaining after the handler are strictly fewer than
before it, at any fuel; and the dispatch loop `nested_expression` never
grows the input.  Together these are the progress argument that makes the
dispatch loop terminate on every finite token stream. -/
theorem c10_nested_expression_progress :
    (∀ (fuel : Nat) (P : Precedence) (t : Token) (rest : List Token) (h : Handler)
      (left : Expression), lut P t = some h →
      ((run_handler fuel h left rest).rest).length < (t :: rest).length)
    ∧ (∀ (fuel : Nat) (P : Precedence) (left : Expression) (ts : List Token),
      ((nested_expression fuel P left ts).rest).length ≤ ts.length) := by
  constructor
  · intro fuel P t rest h left _
    have hb := (engine_length fuel).2.2.2.1 h left rest
    simp only [List.length_cons]
    omega
  · intro fuel P left ts
    exact (engine_length fuel).2.2.1 P left ts

/-- Witness for C10 at a concrete input: the `+` entry of the top-level
table, applied to the tokens after the operator of `a + b`. -/
theorem c10_nested_expression_progress_witness :
    lut .TopPrecedence .OperatorAddition = some (.HBinary .Precedence5 .Addition)
    ∧ ((run_handler 8 (.HBinary .Precedence5 .Addition) (.IdentifierExpression "a")
        [.Identifier "b"]).rest).length
      < ([Token.OperatorAddition, Token.Identifier "b"]).length :=
  ⟨rfl, c10_nested_expression_progress.1 8 .TopPrecedence .OperatorAddition
    [.Identifier "b"] (.HBinary .Precedence5 .Addition) (.IdentifierExpression "a") rfl⟩

end Lunarity
